import Mathlib

/-!
# ci-teams-notification: the card builder of `main.go`

A shallow embedding of the card-construction code of the notifier: the
environment reader, version resolution, the facts, variables and actions
sections, and the assembly of the card body.

Conventions of the embedding.

* A Go `string` is a sequence of bytes (`GoString`); source literals are
  written `go "..."` and stand for their UTF-8 bytes.
* The process environment is the list of its raw `KEY=value` entries.
* `map[string]any` values are `Value.map` association lists, written in the
  order of the source literal and only ever read by key.
* Everything the code takes from outside (clock, network, iteration order of
  Go maps, MIME tables) is a field of `World`.
* Printing and network requests are recorded as a list of `Event`s.
* A run-time panic is an error result (`RuntimePanic`).

The definitions of the section "The program" follow `main.go` function by
function; those of "The words of the specification" follow the specification,
and the theorems at the end compare the two.
-/

namespace TeamsNotification

/-! ## Go strings and the standard-library functions the code calls -/

/-- A Go string: an immutable sequence of bytes. -/
abbrev GoString := List UInt8

/-- The bytes of a string literal of the source (Go source text is UTF-8). -/
def go (s : String) : GoString := s.data.flatMap String.utf8EncodeChar

/-- The function `strings.Split(s, sep)` for a separator `sep` of one byte, the only
way the code calls it: the pieces of `s` between the occurrences of `sep`, so
that a string with `n` separators gives `n + 1` pieces (the empty string gives
one empty piece). -/
def Split (s : GoString) (sep : UInt8) : List GoString :=
  match s with
  | [] => [[]]
  | b :: rest =>
    if b = sep then [] :: Split rest sep
    else
      match Split rest sep with
      | [] => [[b]]
      | piece :: pieces => (b :: piece) :: pieces

/-- The UTF-8 encodings of the runes for which `unicode.IsSpace` holds:
tab, line feed, vertical tab, form feed, carriage return, space, U+0085,
U+00A0, U+1680, U+2000 to U+200A, U+2028, U+2029, U+202F, U+205F, U+3000. -/
def spaceRunes : List GoString :=
  [[0x09], [0x0A], [0x0B], [0x0C], [0x0D], [0x20],
   [0xC2, 0x85], [0xC2, 0xA0], [0xE1, 0x9A, 0x80],
   [0xE2, 0x80, 0x80], [0xE2, 0x80, 0x81], [0xE2, 0x80, 0x82], [0xE2, 0x80, 0x83],
   [0xE2, 0x80, 0x84], [0xE2, 0x80, 0x85], [0xE2, 0x80, 0x86], [0xE2, 0x80, 0x87],
   [0xE2, 0x80, 0x88], [0xE2, 0x80, 0x89], [0xE2, 0x80, 0x8A],
   [0xE2, 0x80, 0xA8], [0xE2, 0x80, 0xA9], [0xE2, 0x80, 0xAF],
   [0xE2, 0x81, 0x9F], [0xE3, 0x80, 0x80]]

/-- Removes one of the byte sequences of `table` from the front of `s`, if `s`
starts with one. -/
def stripOne (table : List GoString) (s : GoString) : Option GoString :=
  table.findSome? fun r => if r.isPrefixOf s then some (s.drop r.length) else none

/-- Removes sequences of `table` from the front of `s` for as long as there is
one, at most `fuel` times. -/
def stripAll (table : List GoString) : Nat → GoString → GoString
  | 0, s => s
  | fuel + 1, s =>
    match stripOne table s with
    | some rest => stripAll table fuel rest
    | none => s

/-- Leading white space removed (`strings.TrimLeftFunc(s, unicode.IsSpace)`); every
removal takes at least one byte, so `s.length` rounds are enough. -/
def TrimLeftSpace (s : GoString) : GoString :=
  stripAll spaceRunes s.length s

/-- Trailing white space removed (`strings.TrimRightFunc(s, unicode.IsSpace)`): the
same on the reversed string with the reversed encodings. -/
def TrimRightSpace (s : GoString) : GoString :=
  (stripAll (spaceRunes.map List.reverse) s.length s.reverse).reverse

/-- The function `strings.TrimSpace`: `s` with all leading and trailing white space
removed, as defined by Unicode. -/
def TrimSpace (s : GoString) : GoString :=
  TrimRightSpace (TrimLeftSpace s)

/-! ## The process environment -/

/-- The environment block of the process: its raw `KEY=value` entries. -/
abbrev Env := List GoString

/-- An environment entry cut at its first `=` into key and value; an entry
without `=` names no variable. -/
def cutEntry : GoString → Option (GoString × GoString)
  | [] => none
  | b :: rest =>
    if b = 0x3D then some ([], rest)
    else (cutEntry rest).map fun kv => (b :: kv.1, kv.2)

/-- The function `os.Getenv`: the value of the first entry whose key is `key`; the
empty string when there is none, and for the empty key. -/
def Getenv (env : Env) (key : GoString) : GoString :=
  if key = [] then []
  else
    match (env.filterMap cutEntry).find? (fun kv => kv.1 == key) with
    | some kv => kv.2
    | none => []

/-- getEnvOrDefault returns environment variable value or default if not set -/
def getEnvOrDefault (env : Env) (key defaultValue : GoString) : GoString :=
  let value := Getenv env key
  if value ≠ [] then value else defaultValue

/-! ## Values, events and the outside world -/

/-- The values the card is made of (`any` in the source): what
`map[string]any`, `[]map[string]any`, strings, booleans, integers and `nil`
hold. The keys of a map are source literals. -/
inductive Value where
  | null
  | bool (b : Bool)
  | int (n : Int)
  | str (s : GoString)
  | list (items : List Value)
  | map (fields : List (String × Value))

/-- The entry of a map value under a key (`m[key]`). -/
def Value.get? : Value → String → Option Value
  | .map fields, key => fields.lookup key
  | _, _ => none

/-- The string a value holds, if it is a string. -/
def Value.str? : Value → Option GoString
  | .str s => some s
  | _ => none

/-- The elements a value holds, if it is a list. -/
def Value.list? : Value → Option (List Value)
  | .list items => some items
  | _ => none

/-- The string under `key` of a map value. -/
def Value.field (v : Value) (key : String) : Option GoString :=
  (v.get? key).bind Value.str?

/-- The list under `key` of a map value. -/
def Value.children (v : Value) (key : String) : Option (List Value) :=
  (v.get? key).bind Value.list?

/-- A run-time panic of the Go program. -/
inductive RuntimePanic where
  | sliceBounds (high length : Nat)
deriving DecidableEq, Repr

/-- What the response to an HTTP request holds, as far as the code reads it. -/
structure HttpResponse where
  statusCode : Nat
  contentType : GoString
  body : Except GoString GoString

/-- Something the program does that is visible outside it. -/
inductive Event where
  | print (text : GoString)
  | httpGet (url : GoString)
deriving DecidableEq

/-- Everything the code reads from outside itself. -/
structure World where
  /-- the environment block -/
  env : Env
  /-- the value of `time.Now().UTC().Format("2006-01-02T15:04:05Z")` -/
  now : GoString
  /-- the outcome of `http.Get(url)`: an error text, or a response -/
  httpGet : GoString → Except GoString HttpResponse
  /-- the table `mime.TypeByExtension` -/
  typeByExtension : GoString → GoString
  /-- the function `http.DetectContentType` -/
  detectContentType : GoString → GoString
  /-- the order in which a `range` over a map with the given keys visits them -/
  mapOrder : List GoString → List GoString

/-- A `range` over a Go map visits every key exactly once. -/
def World.FairOrder (w : World) : Prop :=
  ∀ keys : List GoString, (w.mapOrder keys).Perm keys

/-- The entries of a map in the order a `range` over it visits them. -/
def rangeMap (w : World) (m : List (GoString × Value)) : List (GoString × Value) :=
  (w.mapOrder (m.map Prod.fst)).filterMap fun k => (m.lookup k).map fun v => (k, v)

/-! ## More of the standard library -/

/-- Element 0 of `strings.Split(s, sep)`; the index is in range because a split
has at least one piece. -/
def splitFirst (s : GoString) (sep : UInt8) : GoString :=
  have h : 0 < (Split s sep).length := by
    cases s with
    | nil => simp [Split]
    | cons b rest =>
      unfold Split
      split
      · simp
      · split <;> simp
  (Split s sep)[0]

/-- The function `path.Ext` on the reversed path: scans from the last byte towards
the front, stops at a slash, and returns the suffix from the first dot met. -/
def extFrom : GoString → GoString → GoString
  | [], _ => []
  | b :: front, suffix =>
    if b = 0x2F then []
    else if b = 0x2E then b :: suffix
    else extFrom front (b :: suffix)

/-- The function `path.Ext`: the suffix beginning at the final dot in the final
slash-separated element of the path, empty if there is no dot. -/
def Ext (path : GoString) : GoString :=
  extFrom path.reverse []

/-- The alphabet of `base64.StdEncoding`. -/
def base64Alphabet : GoString :=
  go "ABCDEFGHIJKLMNOPQRSTUVWXYZabcdefghijklmnopqrstuvwxyz0123456789+/"

/-- The character of the standard alphabet for a six-bit value. -/
def base64Char (n : Nat) : UInt8 :=
  base64Alphabet.getD (n % 64) 0

/-- The function `base64.StdEncoding.EncodeToString`: three bytes give four
characters, and a last group of one or two bytes is padded with `=`. -/
def EncodeToString : GoString → GoString
  | [] => []
  | [a] =>
    let n := a.toNat * 65536
    [base64Char (n / 262144), base64Char (n / 4096), 0x3D, 0x3D]
  | [a, b] =>
    let n := a.toNat * 65536 + b.toNat * 256
    [base64Char (n / 262144), base64Char (n / 4096), base64Char (n / 64), 0x3D]
  | a :: b :: c :: rest =>
    let n := a.toNat * 65536 + b.toNat * 256 + c.toNat
    [base64Char (n / 262144), base64Char (n / 4096), base64Char (n / 64), base64Char n]
      ++ EncodeToString rest

/-! ## The program -/

/-- The function `getProjectVersion` of `main.go`; the slice `sha[:7]` panics when
`sha` has fewer than 7 bytes. -/
def getProjectVersion (env : Env) : Except RuntimePanic GoString :=
  let tag := getEnvOrDefault env (go "CI_COMMIT_TAG") []
  if tag ≠ [] then .ok tag
  else
    let sha := getEnvOrDefault env (go "CI_COMMIT_SHA") []
    if sha ≠ [] then
      if 7 ≤ sha.length then .ok (sha.take 7)
      else .error (.sliceBounds 7 sha.length)
    else .ok []

/-- The function `getAvatarDataURI` of `main.go`. -/
def getAvatarDataURI (w : World) (avatarURL : GoString) : Except GoString GoString :=
  match w.httpGet avatarURL with
  | .error err => .error (go "failed to download avatar: " ++ err)
  | .ok resp =>
    match resp.body with
    | .error err => .error (go "failed to read avatar data: " ++ err)
    | .ok imageData =>
      let contentType := resp.contentType
      let ext := Ext avatarURL
      let contentType :=
        if contentType ≠ [] then contentType
        else if ext ≠ [] then w.typeByExtension ext
        else w.detectContentType imageData
      .ok (go "data:" ++ contentType ++ go ";base64," ++ EncodeToString imageData)

/-- The function `createAuthorSection` of `main.go`. -/
def createAuthorSection (env : Env) (avatarDataURI dateStr : GoString) : Value :=
  .map [
    ("type", .str (go "ColumnSet")),
    ("columns", .list [
      .map [
        ("type", .str (go "Column")),
        ("width", .str (go "auto")),
        ("items", .list [
          .map [
            ("type", .str (go "Image")),
            ("url", .str avatarDataURI),
            ("size", .str (go "small")),
            ("style", .str (go "Person"))]])],
      .map [
        ("type", .str (go "Column")),
        ("width", .str (go "stretch")),
        ("items", .list [
          .map [
            ("type", .str (go "TextBlock")),
            ("text", .str (go "@" ++ getEnvOrDefault env (go "CI_COMMIT_AUTHOR") [])),
            ("weight", .str (go "bolder")),
            ("wrap", .bool true)],
          .map [
            ("type", .str (go "TextBlock")),
            ("spacing", .str (go "None")),
            ("text", .str (go "\x7b\x7bDATE(" ++ dateStr ++ go ", SHORT)\x7d\x7d at \x7b\x7bTIME("
              ++ dateStr ++ go ")\x7d\x7d")),
            ("isSubtle", .bool true),
            ("wrap", .bool true)]])]])]

/-- The catalog `allFacts` that `createFactsSection` builds. -/
def allFacts (env : Env) (projectVersion : GoString) : List (GoString × Value) :=
  [(go "project", .map [
      ("title", .str (go "Project:")),
      ("value", .str (getEnvOrDefault env (go "CI_REPO") []))]),
   (go "message", .map [
      ("title", .str (go "Message:")),
      ("value", .str (splitFirst (getEnvOrDefault env (go "CI_COMMIT_MESSAGE") []) 0x0A))]),
   (go "version", .map [
      ("title", .str (go "Version:")),
      ("value", .str projectVersion)])]

/-- The list `facts` that `createFactsSection` collects: every fact of the
catalog when `PLUGIN_FACTS` is empty, else the requested ones. -/
def selectedFacts (w : World) (projectVersion : GoString) : List Value :=
  let allFacts := allFacts w.env projectVersion
  let requestedFacts := getEnvOrDefault w.env (go "PLUGIN_FACTS") []
  if requestedFacts = [] then
    (rangeMap w allFacts).foldl (fun facts entry => facts ++ [entry.2]) []
  else
    (Split requestedFacts 0x2C).foldl
      (fun facts name =>
        let name := TrimSpace name
        match allFacts.lookup name with
        | some fact => facts ++ [fact]
        | none => facts)
      []

/-- The function `createFactsSection` of `main.go`; `none` is the `nil` map. -/
def createFactsSection (w : World) (projectVersion : GoString) : Option Value :=
  let facts := selectedFacts w projectVersion
  if facts.length = 0 then none
  else
    some (.map [
      ("type", .str (go "Container")),
      ("items", .list [
        .map [
          ("type", .str (go "FactSet")),
          ("facts", .list facts)]])])

/-- The function `createBaseBody` of `main.go`. -/
def createBaseBody (w : World) (color title avatarDataURI dateStr projectVersion : GoString) :
    List Value :=
  let body := [
    Value.map [
      ("type", .str (go "Container")),
      ("bleed", .bool true),
      ("spacing", .str (go "None")),
      ("style", .str color),
      ("items", .list [
        .map [
          ("type", .str (go "TextBlock")),
          ("text", .str title),
          ("weight", .str (go "bolder")),
          ("size", .str (go "medium")),
          ("color", .str color)],
        createAuthorSection w.env avatarDataURI dateStr])]]
  match createFactsSection w projectVersion with
  | some facts => body ++ [facts]
  | none => body

/-- The function `createTableCell` of `main.go`. -/
def createTableCell (text : GoString) : Value :=
  .map [
    ("type", .str (go "TableCell")),
    ("items", .list [
      .map [
        ("type", .str (go "TextBlock")),
        ("text", .str text),
        ("wrap", .bool true),
        ("weight", .str (go "Default")),
        ("fontType", .str (go "Monospace"))]])]

/-- The function `createTableRow` of `main.go`. -/
def createTableRow (name value : GoString) : Value :=
  .map [
    ("type", .str (go "TableRow")),
    ("cells", .list [createTableCell name, createTableCell value]),
    ("style", .str (go "default"))]

/-- The list `rows` that `appendVariablesTable` collects (`vars` is its parameter `variables`). -/
def variableRows (env : Env) (vars : GoString) : List Value :=
  (Split vars 0x2C).foldl
    (fun rows varName =>
      let varName := TrimSpace varName
      rows ++ [createTableRow varName (getEnvOrDefault env varName [])])
    []

/-- The function `appendVariablesTable` of `main.go`. -/
def appendVariablesTable (env : Env) (body : List Value) (vars : GoString) : List Value :=
  let body := body ++ [
    Value.map [
      ("type", .str (go "TextBlock")),
      ("text", .str (go "Variables:")),
      ("weight", .str (go "bolder")),
      ("wrap", .bool true)]]
  let rows := variableRows env vars
  let body := body ++ [
    Value.map [
      ("type", .str (go "Table")),
      ("columns", .list [.map [("width", .int 1)], .map [("width", .int 2)]]),
      ("spacing", .str (go "Small")),
      ("showGridLines", .bool false),
      ("firstRowAsHeaders", .bool false),
      ("rows", .list rows)]]
  body

/-- The function `createCardBody` of `main.go`: what it prints and requests, and the
body it returns. -/
def createCardBody (w : World) (projectVersion : GoString) : List Event × List Value :=
  let status := getEnvOrDefault w.env (go "DRONE_BUILD_STATUS") []
  let override_status := getEnvOrDefault w.env (go "PLUGIN_STATUS") []
  let (log₁, status) :=
    if override_status ≠ [] then
      ([Event.print (go "Overriding status to: " ++ override_status ++ go "\n")], override_status)
    else ([], status)
  let (color, title) :=
    if status = go "failure" then (go "attention", go "❌ Pipeline failed")
    else (go "good", go "✔ Pipeline succeeded")
  let dateStr := w.now
  let avatarURL := getEnvOrDefault w.env (go "CI_COMMIT_AUTHOR_AVATAR") []
  let (log₂, avatarDataURI) :=
    if avatarURL ≠ [] then
      match getAvatarDataURI w avatarURL with
      | .ok dataURI => ([Event.httpGet avatarURL], dataURI)
      | .error err =>
        ([Event.httpGet avatarURL,
          Event.print (go "Warning: Failed to process avatar image: " ++ err ++ go "\n")],
         avatarURL)
    else ([], [])
  let body := createBaseBody w color title avatarDataURI dateStr projectVersion
  let vars := getEnvOrDefault w.env (go "PLUGIN_VARIABLES") []
  let body := if vars ≠ [] then appendVariablesTable w.env body vars else body
  (log₁ ++ log₂, body)

/-- The catalog `allActions` that `createCardActions` builds. -/
def allActions (env : Env) : List (GoString × Value) :=
  let allActions := [
    (go "pipeline", Value.map [
      ("type", .str (go "Action.OpenUrl")),
      ("title", .str (go "View Pipeline")),
      ("url", .str (getEnvOrDefault env (go "CI_PIPELINE_URL") []))])]
  let actionURL := getEnvOrDefault env (go "CI_PIPELINE_FORGE_URL") []
  let tag := getEnvOrDefault env (go "CI_COMMIT_TAG") []
  if tag ≠ [] then
    let actionURL := getEnvOrDefault env (go "CI_REPO_URL") [] ++ go "/releases/tag/" ++ tag
    allActions ++ [
      (go "release", Value.map [
        ("type", .str (go "Action.OpenUrl")),
        ("title", .str (go "View Release")),
        ("url", .str actionURL)])]
  else
    allActions ++ [
      (go "commit", Value.map [
        ("type", .str (go "Action.OpenUrl")),
        ("title", .str (go "View Commit")),
        ("url", .str actionURL)])]

/-- The function `createCardActions` of `main.go`. -/
def createCardActions (w : World) : List Value :=
  let allActions := allActions w.env
  let requestedButtons := getEnvOrDefault w.env (go "PLUGIN_BUTTONS") []
  if requestedButtons = [] then
    let actions :=
      match allActions.lookup (go "pipeline") with
      | some pipeline => [pipeline]
      | none => []
    (rangeMap w allActions).foldl
      (fun actions entry => if entry.1 ≠ go "pipeline" then actions ++ [entry.2] else actions)
      actions
  else
    (Split requestedButtons 0x2C).foldl
      (fun actions name =>
        let name := TrimSpace name
        match allActions.lookup name with
        | some action => actions ++ [action]
        | none => actions)
      []

/-- The function `createTeamsCard` of `main.go`, with the events of building the body. -/
def createTeamsCard (w : World) (projectVersion : GoString) : List Event × Value :=
  let (log, body) := createCardBody w projectVersion
  (log, .map [
    ("type", .str (go "message")),
    ("attachments", .list [
      .map [
        ("contentType", .str (go "application/vnd.microsoft.card.adaptive")),
        ("contentUrl", .null),
        ("content", .map [
          ("$schema", .str (go "http://adaptivecards.io/schemas/adaptive-card.json")),
          ("type", .str (go "AdaptiveCard")),
          ("version", .str (go "1.5")),
          ("body", .list body),
          ("actions", .list (createCardActions w))])]])])

/-! ## Reading the card back

The specification speaks of the title and colour of the card, of the facts a
section holds, of the rows of the table. These functions read them off the
value the code builds. -/

/-- The facts a facts section holds: the `facts` list of its one `FactSet`; none
when there is no section. -/
def emittedFacts : Option Value → List Value
  | none => []
  | some block =>
    match block.children "items" with
    | some [factSet] => (factSet.children "facts").getD []
    | _ => []

/-- The header block of a body: its first block. -/
def headerBlock (body : List Value) : Option Value :=
  body.head?

/-- The `style` of the header block. -/
def headerStyle (body : List Value) : Option GoString :=
  (headerBlock body).bind fun header => header.field "style"

/-- The title text block: the first item of the header block. -/
def titleBlock (body : List Value) : Option Value :=
  (headerBlock body).bind fun header => (header.children "items").bind List.head?

/-- The text colour of the title. -/
def headerColor (body : List Value) : Option GoString :=
  (titleBlock body).bind fun block => block.field "color"

/-- The title of the card. -/
def headerTitle (body : List Value) : Option GoString :=
  (titleBlock body).bind fun block => block.field "text"

/-- The text of a table cell: the `text` of its one text block. -/
def cellText (cell : Value) : Option GoString :=
  match cell.children "items" with
  | some [block] => block.field "text"
  | _ => none

/-- The texts of the cells of a table row, in order. -/
def rowTexts (row : Value) : Option (List (Option GoString)) :=
  (row.children "cells").map fun cells => cells.map cellText

/-- The blocks of a body whose `type` is the given one. -/
def blocksOfType (body : List Value) (type : GoString) : List Value :=
  body.filter fun block => block.field "type" == some type

/-! ## The words of the specification

The catalogs, the selection list, the effective status and the first line of a
message as the specification describes them; the theorems compare the code
with these. -/

/-- A fact of the card: a title and a value. -/
def factOf (title value : GoString) : Value :=
  .map [("title", .str title), ("value", .str value)]

/-- The first line of a text: what stands before its first newline, all of it
when it has none. -/
def firstLine (text : GoString) : GoString :=
  text.takeWhile fun b => b ≠ 0x0A

/-- The fact catalog in the words of the specification: the three named facts
`project`, `message` (first line only of the message) and `version`. -/
def factCatalog (env : Env) (projectVersion name : GoString) : Option Value :=
  if name = go "project" then some (factOf (go "Project:") (Getenv env (go "CI_REPO")))
  else if name = go "message" then
    some (factOf (go "Message:") (firstLine (Getenv env (go "CI_COMMIT_MESSAGE"))))
  else if name = go "version" then some (factOf (go "Version:") projectVersion)
  else none

/-- The names of a comma-separated selection list, each whitespace-trimmed. -/
def listedNames (selection : GoString) : List GoString :=
  (Split selection 0x2C).map TrimSpace

/-- The effective status: the override
`PLUGIN_STATUS` when it is non-empty, the pipeline status `DRONE_BUILD_STATUS`
otherwise. -/
def effectiveStatus (env : Env) : GoString :=
  if Getenv env (go "PLUGIN_STATUS") ≠ [] then Getenv env (go "PLUGIN_STATUS")
  else Getenv env (go "DRONE_BUILD_STATUS")

/-- The colour the specification gives a status. -/
def statusColor (status : GoString) : GoString :=
  if status = go "failure" then go "attention" else go "good"

/-- The title the specification gives a status. -/
def statusTitle (status : GoString) : GoString :=
  if status = go "failure" then go "❌ Pipeline failed" else go "✔ Pipeline succeeded"

/-- An action of the card: a button with a title that opens a URL. -/
def actionOf (title url : GoString) : Value :=
  .map [("type", .str (go "Action.OpenUrl")), ("title", .str title), ("url", .str url)]

/-- The action catalog in the words of the specification: `pipeline` always,
and exactly one of `release` (when a tag is present) and `commit`. -/
def actionCatalog (env : Env) (name : GoString) : Option Value :=
  if name = go "pipeline" then
    some (actionOf (go "View Pipeline") (Getenv env (go "CI_PIPELINE_URL")))
  else if Getenv env (go "CI_COMMIT_TAG") ≠ [] then
    if name = go "release" then
      some (actionOf (go "View Release")
        (Getenv env (go "CI_REPO_URL") ++ go "/releases/tag/" ++ Getenv env (go "CI_COMMIT_TAG")))
    else none
  else
    if name = go "commit" then
      some (actionOf (go "View Commit") (Getenv env (go "CI_PIPELINE_FORGE_URL")))
    else none

/-- A world with the given environment, no network, a fixed clock, and maps
visited in the order of their literal. -/
def quietWorld (env : List String) : World where
  env := env.map go
  now := go "2024-05-17T08:30:00Z"
  httpGet := fun _ => .error (go "dial tcp: connection refused")
  typeByExtension := fun _ => []
  detectContentType := fun _ => go "application/octet-stream"
  mapOrder := fun keys => keys

/-- A world like `quietWorld` whose maps are visited in reverse order. -/
def reversedWorld (env : List String) : World where
  env := env.map go
  now := go "2024-05-17T08:30:00Z"
  httpGet := fun _ => .error (go "dial tcp: connection refused")
  typeByExtension := fun _ => []
  detectContentType := fun _ => go "application/octet-stream"
  mapOrder := fun keys => keys.reverse

/-! ## The rest of the process

The debug report, the build info, the delivery and `main`. What they take from
outside is a `Runtime`; what the process does, in order, is a list of `Step`s,
and how it ends is an `Outcome`. -/

/-- The comparison `a < b` of Go strings: byte by byte, a proper beginning of a
string being below it. -/
def strLess : GoString → GoString → Bool
  | _, [] => false
  | [], _ :: _ => true
  | a :: s, b :: t =>
    if a.toNat < b.toNat then true
    else if b.toNat < a.toNat then false
    else strLess s t

/-- Puts a string into an ascending list, after the strings that are below it. -/
def insertString (s : GoString) : List GoString → List GoString
  | [] => [s]
  | t :: rest => if strLess t s then t :: insertString s rest else s :: t :: rest

/-- The function `sort.Strings`: the strings in ascending order. Strings that compare
equal are the same string, so the result does not depend on the algorithm. -/
def sortStrings : List GoString → List GoString
  | [] => []
  | s :: rest => insertString s (sortStrings rest)

/-- The entries `os.Environ` returns after the keys in `seen` have been met: of
the entries with the same key only the first is kept, and empty entries are
left out. -/
def environFrom (seen : List GoString) : Env → List GoString
  | [] => []
  | entry :: rest =>
    match cutEntry entry with
    | some kv =>
      if kv.1 ∈ seen then environFrom seen rest
      else entry :: environFrom (kv.1 :: seen) rest
    | none =>
      if entry = [] then environFrom seen rest
      else entry :: environFrom seen rest

/-- The function `os.Environ`: a copy of the entries of the environment block. -/
def Environ (env : Env) : List GoString :=
  environFrom [] env

/-- The call `strings.SplitN(s, "=", 2)`: the string cut at its first `=`, or the
string alone when it has none. -/
def SplitN2 (s : GoString) : List GoString :=
  match cutEntry s with
  | some kv => [kv.1, kv.2]
  | none => [s]

/-- The response to the delivery request, as far as the code reads it. -/
structure DeliveryResponse where
  statusCode : Nat
  /-- the data `io.ReadAll(resp.Body)` returns: the body, or the part of it read
  before a read error -/
  bodyRead : GoString

/-- Everything the process reads from outside itself. -/
structure Runtime extends World where
  /-- the outcome of `http.Post(url, contentType, body)`: an error text, or a response -/
  httpPost : GoString → GoString → GoString → Except GoString DeliveryResponse
  /-- the function `json.Marshal` on the card -/
  marshal : Value → Except GoString GoString
  /-- the value of `time.Now().UTC().Format(time.RFC3339)` in `printBuildInfo` -/
  buildDate : GoString
  /-- the number of code points of a string, which `fmt` measures widths in -/
  runeCount : GoString → Nat

/-- Something the process does: an event of the card builder, or the delivery
request. -/
inductive Step where
  | event (e : Event)
  | httpPost (url contentType body : GoString)
deriving DecidableEq

/-- Printing a text on standard output. -/
def say (text : GoString) : Step :=
  .event (.print text)

/-- How the process ends: with an exit status, or in a panic. -/
inductive Outcome where
  | exit (code : Nat)
  | panic (p : RuntimePanic)
deriving DecidableEq

/-- The verb `%-30s` of `fmt`: the string, padded with blanks on the right to 30
code points. -/
def padRight30 (rt : Runtime) (s : GoString) : GoString :=
  s ++ List.replicate (30 - rt.runeCount s) 0x20

/-- The line `printDebugInfo` prints for a variable. -/
def debugLine (rt : Runtime) (key value : GoString) : Step :=
  say (go " " ++ padRight30 rt key ++ go " = " ++ value ++ go "\n")

/-- The function `printDebugInfo` of `main.go`. -/
def printDebugInfo (rt : Runtime) (cardBytes : GoString) : List Step :=
  let envVars := sortStrings (Environ rt.env)
  [say (go "\n** DEBUG ENABLED **\n"), say (go "\nEnvironment Variables:\n")]
    ++ envVars.foldl
        (fun out env =>
          match SplitN2 env with
          | [key, value] => out ++ [debugLine rt key value]
          | _ => out)
        []
    ++ [say (go "\nCard JSON:\n"), say (cardBytes ++ go "\n")]

/-- The function `printBuildInfo` of `main.go`. -/
def printBuildInfo (rt : Runtime) (projectVersion : GoString) : List Step :=
  [say (go "\nBuild Info:\n"),
   say (go " PROJECT: " ++ getEnvOrDefault rt.env (go "CI_REPO") [] ++ go "\n"),
   say (go " VERSION: " ++ projectVersion ++ go "\n"),
   say (go " STATUS:  " ++ getEnvOrDefault rt.env (go "DRONE_BUILD_STATUS") [] ++ go "\n"),
   say (go " DATE:    " ++ rt.buildDate ++ go "\n")]

/-- The function `sendCard` of `main.go`: its steps, and the status it exits the process
with, if it does (`none` when it returns). -/
def sendCard (rt : Runtime) (webhookURL cardBytes : GoString) : List Step × Option Nat :=
  let steps := [say (go "\nSending to Microsoft Teams...\n"),
    Step.httpPost webhookURL (go "application/json") cardBytes]
  match rt.httpPost webhookURL (go "application/json") cardBytes with
  | .error err => (steps ++ [say (go "Error sending to Teams: " ++ err ++ go "\n")], some 1)
  | .ok resp =>
    if resp.statusCode ≠ 200 then
      (steps ++ [say (go "Error response from Teams: " ++ resp.bodyRead ++ go "\n")], some 1)
    else (steps ++ [say (go "Done!\n")], none)

/-- What `main` does once the card is serialized: the debug report if enabled,
the build info, the delivery. -/
def deliver (rt : Runtime) (webhookURL projectVersion cardBytes : GoString) :
    List Step × Outcome :=
  let debug :=
    if getEnvOrDefault rt.env (go "PLUGIN_DEBUG") (go "false") = go "true" then
      printDebugInfo rt cardBytes
    else []
  let info := printBuildInfo rt projectVersion
  let sent := sendCard rt webhookURL cardBytes
  (debug ++ info ++ sent.1,
   match sent.2 with
   | some code => .exit code
   | none => .exit 0)

/-- The function `main` of `main.go`: the steps of the process and how it ends. -/
def main (rt : Runtime) : List Step × Outcome :=
  let webhookURL := getEnvOrDefault rt.env (go "PLUGIN_WEBHOOK_URL") []
  if webhookURL = [] then
    ([say (go "Need to set MS Teams Webhook URL\n")], .exit 1)
  else
    match getProjectVersion rt.env with
    | .error p => ([], .panic p)
    | .ok projectVersion =>
      let built := createTeamsCard rt.toWorld projectVersion
      let steps := built.1.map Step.event
      match rt.marshal built.2 with
      | .error err =>
        (steps ++ [say (go "Error creating card JSON: " ++ err ++ go "\n")], .exit 1)
      | .ok cardBytes =>
        let rest := deliver rt webhookURL projectVersion cardBytes
        (steps ++ rest.1, rest.2)

/-! ## Reading the process back, and more words of the specification -/

/-- The value of a variable of the environment as `os.LookupEnv` gives it: that
of the first entry with the key, nothing when there is none. -/
def LookupEnv (env : Env) (key : GoString) : Option GoString :=
  if key = [] then none
  else ((env.filterMap cutEntry).find? fun kv => kv.1 == key).map Prod.snd

/-- The variables of the environment block: for every key, its first entry. -/
def firstBinding (env : Env) (key : GoString) : Option (GoString × GoString) :=
  (env.filterMap cutEntry).find? fun kv => kv.1 == key

/-- The pairs `printDebugInfo` prints, in the order it prints them. -/
def debugPairs (env : Env) : List (GoString × GoString) :=
  (sortStrings (Environ env)).filterMap cutEntry

/-- The url of the image of the author section: in the header block, the first
item of the first column of the column set. -/
def avatarImageUrl (body : List Value) : Option GoString :=
  (headerBlock body).bind fun header =>
    match header.children "items" with
    | some [_, author] =>
      match author.children "columns" with
      | some (column :: _) =>
        match column.children "items" with
        | some [image] => image.field "url"
        | _ => none
      | _ => none
    | _ => none

/-- The source of the avatar image: nothing without `CI_COMMIT_AUTHOR_AVATAR`, else
the data URI of the fetched image, or the reference itself when fetching
fails. -/
def avatarSource (w : World) : GoString :=
  if Getenv w.env (go "CI_COMMIT_AUTHOR_AVATAR") ≠ [] then
    match getAvatarDataURI w (Getenv w.env (go "CI_COMMIT_AUTHOR_AVATAR")) with
    | .ok dataURI => dataURI
    | .error _ => Getenv w.env (go "CI_COMMIT_AUTHOR_AVATAR")
  else []

/-- The content type of the avatar in the words of the specification: the
header of the response if non-empty, else the type of the extension of the URL
if it has one, else the type sniffed from the payload. -/
def avatarMime (w : World) (avatarURL : GoString) (header payload : GoString) : GoString :=
  if header ≠ [] then header
  else if Ext avatarURL ≠ [] then w.typeByExtension (Ext avatarURL)
  else w.detectContentType payload

/-- The requests of a run that go over the network. -/
def networkSteps (steps : List Step) : List Step :=
  steps.filter fun step =>
    match step with
    | .event (.httpGet _) => true
    | .httpPost _ _ _ => true
    | _ => false

/-- The delivery requests of a run: endpoint and bytes. -/
def posts (steps : List Step) : List (GoString × GoString) :=
  steps.filterMap fun step =>
    match step with
    | .httpPost url _ body => some (url, body)
    | _ => none

/-- A runtime over `quietWorld`: the delivery answers with the given status and
body, the serializer returns the text `(card)`, and widths are counted in bytes. -/
def quietRuntime (env : List String) (statusCode : Nat) (answer : String) : Runtime where
  toWorld := quietWorld env
  httpPost := fun _ _ _ => .ok ⟨statusCode, go answer⟩
  marshal := fun _ => .ok (go "(card)")
  buildDate := go "2024-05-17T08:30:01Z"
  runeCount := fun s => s.length

/-- A runtime like `quietRuntime` whose delivery fails in transport. -/
def offlineRuntime (env : List String) : Runtime where
  toWorld := quietWorld env
  httpPost := fun _ _ _ => .error (go "dial tcp: connection refused")
  marshal := fun _ => .ok (go "(card)")
  buildDate := go "2024-05-17T08:30:01Z"
  runeCount := fun s => s.length

/-- A world like `quietWorld` in which every request is answered with the given
status, content type and body. -/
def answeringWorld (env : List String) (statusCode : Nat) (contentType body : String) :
    World where
  env := env.map go
  now := go "2024-05-17T08:30:00Z"
  httpGet := fun _ => .ok ⟨statusCode, go contentType, .ok (go body)⟩
  typeByExtension := fun ext => if ext = go ".png" then go "image/png" else []
  detectContentType := fun _ => go "application/octet-stream"
  mapOrder := fun keys => keys

/-! ## Lemmas on the environment reader and on loops -/

theorem getEnvOrDefault_nil (env : Env) (key : GoString) :
    getEnvOrDefault env key [] = Getenv env key := by
  unfold getEnvOrDefault
  by_cases h : Getenv env key = [] <;> simp [h]

/-- A loop that appends a result for some elements and skips the others
collects the selected results in order. -/
theorem foldl_select {α β : Type} (step : List β → α → List β) (f : α → Option β)
    (h : ∀ acc x, step acc x = acc ++ (f x).toList) (xs : List α) (acc : List β) :
    xs.foldl step acc = acc ++ xs.filterMap f := by
  induction xs generalizing acc with
  | nil => simp
  | cons x xs ih =>
    rw [List.foldl_cons, ih, h]
    cases hx : f x <;> simp [List.filterMap_cons, hx]

/-- Reading a map whose first entry has key `k`. -/
theorem lookup_cons_if {β : Type} (a k : GoString) (v : β) (es : List (GoString × β)) :
    List.lookup a ((k, v) :: es) = if a = k then some v else List.lookup a es := by
  by_cases h : a = k
  · simp [List.lookup_cons, h]
  · have hb : (a == k) = false := by simpa using h
    simp [List.lookup_cons, h, hb]

theorem Split_ne_nil (s : GoString) (sep : UInt8) : Split s sep ≠ [] := by
  cases s with
  | nil => simp [Split]
  | cons b rest =>
    unfold Split
    split
    · simp
    · split <;> simp

theorem Split_head? (s : GoString) (sep : UInt8) :
    (Split s sep).head? = some (s.takeWhile fun b => b ≠ sep) := by
  induction s with
  | nil => simp [Split]
  | cons b rest ih =>
    unfold Split
    by_cases hb : b = sep
    · simp [hb]
    · simp only [hb, if_false]
      cases hs : Split rest sep with
      | nil => exact absurd hs (Split_ne_nil rest sep)
      | cons piece pieces =>
        rw [hs] at ih
        simp at ih
        simp [List.takeWhile_cons, hb, ih]

/-- Joining at least two pieces puts the separator after the first. -/
theorem intercalate_cons_cons (sep x y : GoString) (ys : List GoString) :
    List.intercalate sep (x :: y :: ys) = x ++ sep ++ List.intercalate sep (y :: ys) := by
  simp [List.intercalate, List.intersperse]

/-- Joining the pieces of a split with the separator gives the string back. -/
theorem Split_join (s : GoString) (sep : UInt8) :
    List.intercalate [sep] (Split s sep) = s := by
  induction s with
  | nil => simp [Split, List.intercalate]
  | cons b rest ih =>
    unfold Split
    cases hs : Split rest sep with
    | nil => exact absurd hs (Split_ne_nil rest sep)
    | cons piece pieces =>
      rw [hs] at ih
      by_cases hb : b = sep
      · simp only [hb, if_true]
        rw [intercalate_cons_cons, ih]
        simp
      · simp only [hb, if_false]
        cases pieces with
        | nil =>
          simp [List.intercalate, List.intersperse] at ih ⊢
          exact ih
        | cons q qs =>
          rw [intercalate_cons_cons] at ih ⊢
          simp at ih ⊢
          exact ih

/-- No piece of a split holds the separator. -/
theorem Split_pieces (s : GoString) (sep : UInt8) : ∀ piece ∈ Split s sep, sep ∉ piece := by
  induction s with
  | nil => simp [Split]
  | cons b rest ih =>
    unfold Split
    cases hs : Split rest sep with
    | nil => exact absurd hs (Split_ne_nil rest sep)
    | cons piece pieces =>
      rw [hs] at ih
      by_cases hb : b = sep
      · simp only [hb, if_true]
        intro p hp
        rcases List.mem_cons.mp hp with h | h
        · simp [h]
        · exact ih p h
      · simp only [hb, if_false]
        intro p hp
        rcases List.mem_cons.mp hp with h | h
        · rw [h]
          intro hmem
          rcases List.mem_cons.mp hmem with h' | h'
          · exact hb h'.symm
          · exact ih piece (List.mem_cons_self _ _) h'
        · exact ih p (List.mem_cons_of_mem _ h)

theorem splitFirst_eq_firstLine (text : GoString) :
    splitFirst text 0x0A = firstLine text := by
  have h := Split_head? text 0x0A
  unfold splitFirst firstLine
  apply Option.some.inj
  rw [← h, List.head?_eq_getElem?]
  exact (List.getElem?_eq_getElem _).symm

/-! ## Version resolution on the examples of the specification -/

/-- The three examples of the specification: a tag wins over the hash, a hash of
13 bytes gives its first 7, and nothing gives the empty version. -/
theorem getProjectVersion_examples :
    getProjectVersion [go "CI_COMMIT_TAG=v1.2.3", go "CI_COMMIT_SHA=abcdef1234567"]
        = .ok (go "v1.2.3")
      ∧ getProjectVersion [go "CI_COMMIT_SHA=abcdef1234567"] = .ok (go "abcdef1")
      ∧ getProjectVersion [] = .ok [] :=
  ⟨by rfl, by rfl, by rfl⟩

/-! ## White space: the rounds of `TrimSpace` are enough -/

theorem stripOne_eq_some (table : List GoString) (s rest : GoString)
    (h : stripOne table s = some rest) :
    ∃ r ∈ table, r <+: s ∧ rest = s.drop r.length := by
  unfold stripOne at h
  obtain ⟨r, hr, hf⟩ := List.exists_of_findSome?_eq_some h
  by_cases hp : r.isPrefixOf s = true
  · simp only [hp, if_true, Option.some.injEq] at hf
    exact ⟨r, hr, List.isPrefixOf_iff_prefix.mp hp, hf.symm⟩
  · simp [hp] at hf

theorem stripOne_eq_none (table : List GoString) (s : GoString) :
    stripOne table s = none ↔ ∀ r ∈ table, ¬ r <+: s := by
  unfold stripOne
  rw [List.findSome?_eq_none_iff]
  constructor
  · intro h r hr hp
    have := h r hr
    simp [List.isPrefixOf_iff_prefix.mpr hp] at this
  · intro h r hr
    have hp : ¬ r.isPrefixOf s = true := fun hp => h r hr (List.isPrefixOf_iff_prefix.mp hp)
    simp [hp]

/-- What is left after the rounds is the end of the string. -/
theorem stripAll_suffix (table : List GoString) (fuel : Nat) (s : GoString) :
    stripAll table fuel s <:+ s := by
  induction fuel generalizing s with
  | zero => exact List.suffix_refl s
  | succ fuel ih =>
    unfold stripAll
    cases h : stripOne table s with
    | none => exact List.suffix_refl s
    | some rest =>
      obtain ⟨r, _, _, hrest⟩ := stripOne_eq_some table s rest h
      exact (ih rest).trans (hrest ▸ List.drop_suffix _ _)

/-- With as many rounds as the string has bytes, nothing of the table is left
at the front. -/
theorem stripAll_done (table : List GoString) (htable : ∀ r ∈ table, r ≠ [])
    (fuel : Nat) (s : GoString) (hfuel : s.length ≤ fuel) :
    stripOne table (stripAll table fuel s) = none := by
  induction fuel generalizing s with
  | zero =>
    have hs : s = [] := List.length_eq_zero.mp (Nat.le_zero.mp hfuel)
    subst hs
    rw [stripAll, stripOne_eq_none]
    intro r hr hp
    exact htable r hr (List.prefix_nil.mp hp)
  | succ fuel ih =>
    unfold stripAll
    cases h : stripOne table s with
    | none => exact h
    | some rest =>
      obtain ⟨r, hr, hp, hrest⟩ := stripOne_eq_some table s rest h
      have hpos : 0 < r.length := List.length_pos.mpr (htable r hr)
      have hle := hp.length_le
      apply ih
      rw [hrest, List.length_drop]
      omega

/-- The result of `TrimSpace` is a part of the string that neither starts nor ends
with white space. -/
theorem TrimSpace_trimmed (s : GoString) :
    (∀ r ∈ spaceRunes, ¬ r <+: TrimSpace s) ∧ (∀ r ∈ spaceRunes, ¬ r <:+ TrimSpace s)
      ∧ TrimSpace s <:+: s := by
  have hleft : ∀ r ∈ spaceRunes, ¬ r <+: TrimLeftSpace s :=
    (stripOne_eq_none _ _).mp (stripAll_done spaceRunes (by decide) _ s (Nat.le_refl _))
  have hsuf := stripAll_suffix (spaceRunes.map List.reverse) (TrimLeftSpace s).length
    (TrimLeftSpace s).reverse
  have hpre : TrimSpace s <+: TrimLeftSpace s := by
    unfold TrimSpace TrimRightSpace
    rw [← List.reverse_suffix, List.reverse_reverse]
    exact hsuf
  have hright := (stripOne_eq_none _ _).mp
    (stripAll_done (spaceRunes.map List.reverse) (by decide) (TrimLeftSpace s).length
      (TrimLeftSpace s).reverse (by simp))
  refine ⟨fun r hr hp => hleft r hr (hp.trans hpre), fun r hr hend => ?_, ?_⟩
  · apply hright r.reverse (List.mem_map.mpr ⟨r, hr, rfl⟩)
    have hrev : r.reverse <+: (TrimSpace s).reverse := List.reverse_prefix.mpr hend
    simpa [TrimSpace, TrimRightSpace] using hrev
  · exact hpre.isInfix.trans (stripAll_suffix spaceRunes s.length s).isInfix

/-! ## Ranging over a map -/

/-- Reading a map with distinct keys at the key of one of its entries gives
that entry. -/
theorem lookup_of_mem {β : Type} (m : List (GoString × β)) (hm : (m.map Prod.fst).Nodup)
    (k : GoString) (v : β) (hkv : (k, v) ∈ m) : m.lookup k = some v := by
  induction m with
  | nil => cases hkv
  | cons e rest ih =>
    obtain ⟨k0, v0⟩ := e
    rw [List.map_cons, List.nodup_cons] at hm
    rw [lookup_cons_if]
    rcases List.mem_cons.mp hkv with heq | hin
    · cases heq
      simp
    · have hne : k ≠ k0 := by
        intro hk
        apply hm.1
        rw [← hk]
        exact List.mem_map.mpr ⟨(k, v), hin, rfl⟩
      simp [hne, ih hm.2 hin]

/-- A `range` over a map with distinct keys yields its entries, each once, in
some order. -/
theorem rangeMap_perm (w : World) (hw : w.FairOrder) (m : List (GoString × Value))
    (hm : (m.map Prod.fst).Nodup) : (rangeMap w m).Perm m := by
  unfold rangeMap
  have hself : (m.map Prod.fst).filterMap (fun k => (m.lookup k).map fun v => (k, v)) = m := by
    rw [List.filterMap_map]
    have hsome : ∀ e ∈ m,
        ((fun k => (m.lookup k).map fun v => (k, v)) ∘ Prod.fst) e = some e := by
      intro e he
      obtain ⟨k, v⟩ := e
      simp [lookup_of_mem m hm k v he]
    rw [List.filterMap_congr hsome]
    exact List.filterMap_some m
  exact ((hw (m.map Prod.fst)).filterMap _).trans (by rw [hself])

/-- A loop that appends the value of every entry collects the values in order. -/
theorem foldl_collect {α β : Type} (f : α → β) (xs : List α) (acc : List β) :
    xs.foldl (fun acc x => acc ++ [f x]) acc = acc ++ xs.map f := by
  induction xs generalizing acc with
  | nil => simp
  | cons x xs ih => simp [List.foldl_cons, ih]

/-- A loop that appends the value of the entries that pass a test collects the
values of those entries in order. -/
theorem foldl_collect_if {α β : Type} (p : α → Prop) [DecidablePred p] (f : α → β)
    (xs : List α) (acc : List β) :
    xs.foldl (fun acc x => if p x then acc ++ [f x] else acc) acc
      = acc ++ (xs.filter fun x => decide (p x)).map f := by
  induction xs generalizing acc with
  | nil => simp
  | cons x xs ih =>
    by_cases hp : p x <;> simp [List.foldl_cons, ih, List.filter_cons, hp]

/-! ## The facts section -/

theorem allFacts_lookup (env : Env) (projectVersion name : GoString) :
    (allFacts env projectVersion).lookup name = factCatalog env projectVersion name := by
  unfold allFacts factCatalog factOf
  simp only [lookup_cons_if, List.lookup_nil, getEnvOrDefault_nil, splitFirst_eq_firstLine]

theorem emittedFacts_createFactsSection (w : World) (projectVersion : GoString) :
    emittedFacts (createFactsSection w projectVersion) = selectedFacts w projectVersion := by
  unfold createFactsSection
  cases hf : selectedFacts w projectVersion with
  | nil => simp [emittedFacts]
  | cons fact facts =>
    simp [emittedFacts, Value.children, Value.get?, List.lookup, Value.list?]

theorem selectedFacts_requested (w : World) (projectVersion : GoString)
    (h : Getenv w.env (go "PLUGIN_FACTS") ≠ []) :
    selectedFacts w projectVersion
      = (listedNames (Getenv w.env (go "PLUGIN_FACTS"))).filterMap
          (factCatalog w.env projectVersion) := by
  unfold selectedFacts listedNames
  simp only [getEnvOrDefault_nil, h, if_false]
  rw [foldl_select _ (fun name => factCatalog w.env projectVersion (TrimSpace name))]
  · simp [List.filterMap_map, Function.comp_def]
  · intro acc name
    simp only [allFacts_lookup]
    cases factCatalog w.env projectVersion (TrimSpace name) <;> simp

/-! ## The body of the card -/

/-- The body `createCardBody` returns: the base body for the colour and title of
the effective status, with the variables table appended when `PLUGIN_VARIABLES`
is set. -/
theorem createCardBody_body (w : World) (projectVersion : GoString) :
    ∃ avatar : GoString,
      (createCardBody w projectVersion).2 =
        if Getenv w.env (go "PLUGIN_VARIABLES") ≠ [] then
          appendVariablesTable w.env
            (createBaseBody w (statusColor (effectiveStatus w.env))
              (statusTitle (effectiveStatus w.env)) avatar w.now projectVersion)
            (Getenv w.env (go "PLUGIN_VARIABLES"))
        else
          createBaseBody w (statusColor (effectiveStatus w.env))
            (statusTitle (effectiveStatus w.env)) avatar w.now projectVersion := by
  refine ⟨if Getenv w.env (go "CI_COMMIT_AUTHOR_AVATAR") ≠ [] then
      (match getAvatarDataURI w (Getenv w.env (go "CI_COMMIT_AUTHOR_AVATAR")) with
        | .ok dataURI => dataURI
        | .error _ => Getenv w.env (go "CI_COMMIT_AUTHOR_AVATAR"))
    else [], ?_⟩
  have hne : go "failure" ≠ [] := by decide
  unfold createCardBody effectiveStatus statusColor statusTitle
  simp only [getEnvOrDefault_nil]
  by_cases ha : Getenv w.env (go "CI_COMMIT_AUTHOR_AVATAR") = []
  · by_cases ho : Getenv w.env (go "PLUGIN_STATUS") = []
    · by_cases hs : Getenv w.env (go "DRONE_BUILD_STATUS") = go "failure" <;>
        simp [ho, hs, ha]
    · by_cases hs : Getenv w.env (go "PLUGIN_STATUS") = go "failure"
      · simp [hs, ha, hne]
      · simp [ho, hs, ha]
  · cases hg : getAvatarDataURI w (Getenv w.env (go "CI_COMMIT_AUTHOR_AVATAR")) <;>
    · by_cases ho : Getenv w.env (go "PLUGIN_STATUS") = []
      · by_cases hs : Getenv w.env (go "DRONE_BUILD_STATUS") = go "failure" <;>
          simp [ho, hs, ha]
      · by_cases hs : Getenv w.env (go "PLUGIN_STATUS") = go "failure"
        · simp [hs, ha, hne]
        · simp [ho, hs, ha]

/-- The header of the body carries the colour and title of the effective status. -/
theorem createCardBody_header (w : World) (projectVersion : GoString) :
    headerStyle (createCardBody w projectVersion).2 = some (statusColor (effectiveStatus w.env))
      ∧ headerColor (createCardBody w projectVersion).2
          = some (statusColor (effectiveStatus w.env))
      ∧ headerTitle (createCardBody w projectVersion).2
          = some (statusTitle (effectiveStatus w.env)) := by
  obtain ⟨avatar, hb⟩ := createCardBody_body w projectVersion
  rw [hb]
  unfold createBaseBody appendVariablesTable
  split <;> cases createFactsSection w projectVersion <;>
    simp [headerStyle, headerBlock, titleBlock, headerColor, headerTitle, Value.field,
      Value.children, Value.get?, List.lookup, Value.str?, Value.list?]

theorem allFacts_keys (env : Env) (projectVersion : GoString) :
    (allFacts env projectVersion).map Prod.fst = [go "project", go "message", go "version"] := by
  simp [allFacts]

theorem allFacts_values (env : Env) (projectVersion : GoString) :
    (allFacts env projectVersion).map Prod.snd
      = [factOf (go "Project:") (Getenv env (go "CI_REPO")),
         factOf (go "Message:") (firstLine (Getenv env (go "CI_COMMIT_MESSAGE"))),
         factOf (go "Version:") projectVersion] := by
  simp [allFacts, factOf, getEnvOrDefault_nil, splitFirst_eq_firstLine]

/-- Without a selection the loop of `createFactsSection` collects the three facts
of the catalog, in the order the map is visited. -/
theorem selectedFacts_all (w : World) (projectVersion : GoString) (hw : w.FairOrder)
    (h : Getenv w.env (go "PLUGIN_FACTS") = []) :
    (selectedFacts w projectVersion).Perm
      [factOf (go "Project:") (Getenv w.env (go "CI_REPO")),
       factOf (go "Message:") (firstLine (Getenv w.env (go "CI_COMMIT_MESSAGE"))),
       factOf (go "Version:") projectVersion] := by
  have hkeys : ((allFacts w.env projectVersion).map Prod.fst).Nodup := by
    rw [allFacts_keys]
    decide
  have hloop := foldl_collect (fun entry : GoString × Value => entry.2)
    (rangeMap w (allFacts w.env projectVersion)) []
  unfold selectedFacts
  simp only [getEnvOrDefault_nil, h, if_true]
  rw [hloop, List.nil_append, ← allFacts_values]
  exact (rangeMap_perm w hw _ hkeys).map _

theorem createFactsSection_eq_none (w : World) (projectVersion : GoString) :
    createFactsSection w projectVersion = none ↔ selectedFacts w projectVersion = [] := by
  unfold createFactsSection
  cases selectedFacts w projectVersion <;> simp

theorem createFactsSection_eq_some (w : World) (projectVersion : GoString) (block : Value)
    (h : createFactsSection w projectVersion = some block) :
    selectedFacts w projectVersion ≠ []
      ∧ block = .map [
          ("type", .str (go "Container")),
          ("items", .list [
            .map [
              ("type", .str (go "FactSet")),
              ("facts", .list (selectedFacts w projectVersion))]])] := by
  unfold createFactsSection at h
  cases hf : selectedFacts w projectVersion with
  | nil => simp [hf] at h
  | cons fact facts =>
    simp [hf] at h
    simp [h]

/-- The names of the fact catalog. -/
theorem factCatalog_eq_none (env : Env) (projectVersion name : GoString) :
    factCatalog env projectVersion name = none
      ↔ name ≠ go "project" ∧ name ≠ go "message" ∧ name ≠ go "version" := by
  unfold factCatalog
  split_ifs <;> simp [*]

/-- Every block of the base body is a container. -/
theorem createBaseBody_types (w : World)
    (color title avatarDataURI dateStr projectVersion : GoString) :
    ∀ block ∈ createBaseBody w color title avatarDataURI dateStr projectVersion,
      block.field "type" = some (go "Container") := by
  intro block hb
  unfold createBaseBody at hb
  cases hcf : createFactsSection w projectVersion with
  | none =>
    simp [hcf] at hb
    simp [hb, Value.field, Value.get?, List.lookup, Value.str?]
  | some facts =>
    have hshape := (createFactsSection_eq_some w projectVersion facts hcf).2
    simp [hcf] at hb
    rcases hb with hb | hb
    · simp [hb, Value.field, Value.get?, List.lookup, Value.str?]
    · rw [hb, hshape]
      simp [Value.field, Value.get?, List.lookup, Value.str?]

/-! ## The variables table -/

theorem variableRows_eq (env : Env) (vars : GoString) :
    variableRows env vars
      = (listedNames vars).map fun name => createTableRow name (Getenv env name) := by
  have hloop := foldl_collect
    (fun varName : GoString =>
      createTableRow (TrimSpace varName) (getEnvOrDefault env (TrimSpace varName) []))
    (Split vars 0x2C) []
  unfold variableRows listedNames
  simp only [getEnvOrDefault_nil] at hloop ⊢
  rw [hloop]
  simp [List.map_map, Function.comp_def]

theorem rowTexts_createTableRow (name value : GoString) :
    rowTexts (createTableRow name value) = some [some name, some value] := by
  simp [rowTexts, createTableRow, createTableCell, cellText, Value.children, Value.field,
    Value.get?, List.lookup, Value.str?, Value.list?]

/-- The base body has no block of a type other than `Container`. -/
theorem blocksOfType_createBaseBody (w : World)
    (color title avatarDataURI dateStr projectVersion type : GoString)
    (ht : type ≠ go "Container") :
    blocksOfType (createBaseBody w color title avatarDataURI dateStr projectVersion) type
      = [] := by
  unfold blocksOfType
  rw [List.filter_eq_nil_iff]
  intro block hb
  rw [createBaseBody_types w color title avatarDataURI dateStr projectVersion block hb]
  simpa using fun h => ht h.symm

theorem blocksOfType_append (body more : List Value) (type : GoString) :
    blocksOfType (body ++ more) type = blocksOfType body type ++ blocksOfType more type := by
  simp [blocksOfType, List.filter_append]

/-- The top-level text blocks and tables of the body, with a variables list. -/
theorem appendVariablesTable_blocks (w : World)
    (color title avatarDataURI dateStr projectVersion vars : GoString) :
    (blocksOfType
        (appendVariablesTable w.env
          (createBaseBody w color title avatarDataURI dateStr projectVersion) vars)
        (go "TextBlock")).map (fun block => block.field "text") = [some (go "Variables:")]
      ∧ (blocksOfType
        (appendVariablesTable w.env
          (createBaseBody w color title avatarDataURI dateStr projectVersion) vars)
        (go "Table")).map (fun block => block.children "rows")
          = [some (variableRows w.env vars)] := by
  have h1 : go "TextBlock" ≠ go "Container" := by decide
  have h2 : go "Table" ≠ go "Container" := by decide
  have h3 : go "TextBlock" ≠ go "Table" := by decide
  unfold appendVariablesTable
  simp only [blocksOfType_append, blocksOfType_createBaseBody _ _ _ _ _ _ _ h1,
    blocksOfType_createBaseBody _ _ _ _ _ _ _ h2]
  simp [blocksOfType, Value.field, Value.children, Value.get?, List.lookup, Value.str?,
    Value.list?, h3, h3.symm]

/-! ## The actions -/

theorem allActions_lookup (env : Env) (name : GoString) :
    (allActions env).lookup name = actionCatalog env name := by
  unfold allActions actionCatalog actionOf
  simp only [getEnvOrDefault_nil]
  by_cases ht : Getenv env (go "CI_COMMIT_TAG") = []
  · simp [ht, lookup_cons_if]
  · simp [ht, lookup_cons_if]

theorem createCardActions_requested (w : World)
    (h : Getenv w.env (go "PLUGIN_BUTTONS") ≠ []) :
    createCardActions w
      = (listedNames (Getenv w.env (go "PLUGIN_BUTTONS"))).filterMap (actionCatalog w.env) := by
  unfold createCardActions listedNames
  simp only [getEnvOrDefault_nil, h, if_false]
  rw [foldl_select _ (fun name => actionCatalog w.env (TrimSpace name))]
  · simp [List.filterMap_map, Function.comp_def]
  · intro acc name
    simp only [allActions_lookup]
    cases actionCatalog w.env (TrimSpace name) <;> simp

theorem allActions_eq (env : Env) :
    allActions env
      = [(go "pipeline", actionOf (go "View Pipeline") (Getenv env (go "CI_PIPELINE_URL"))),
         if Getenv env (go "CI_COMMIT_TAG") ≠ [] then
           (go "release", actionOf (go "View Release")
             (Getenv env (go "CI_REPO_URL") ++ go "/releases/tag/"
               ++ Getenv env (go "CI_COMMIT_TAG")))
         else
           (go "commit", actionOf (go "View Commit") (Getenv env (go "CI_PIPELINE_FORGE_URL")))] := by
  unfold allActions actionOf
  simp only [getEnvOrDefault_nil]
  by_cases ht : Getenv env (go "CI_COMMIT_TAG") = [] <;> simp [ht]

/-- Ranging over the catalog and skipping `pipeline` leaves the one other action. -/
theorem rangeMap_allActions_others (w : World) (hw : w.FairOrder) :
    ((rangeMap w (allActions w.env)).filter fun entry => decide (entry.1 ≠ go "pipeline")).map
        Prod.snd
      = [if Getenv w.env (go "CI_COMMIT_TAG") ≠ [] then
           actionOf (go "View Release")
             (Getenv w.env (go "CI_REPO_URL") ++ go "/releases/tag/"
               ++ Getenv w.env (go "CI_COMMIT_TAG"))
         else actionOf (go "View Commit") (Getenv w.env (go "CI_PIPELINE_FORGE_URL"))] := by
  have h1 : go "release" ≠ go "pipeline" := by decide
  have h2 : go "commit" ≠ go "pipeline" := by decide
  have h3 : go "pipeline" ≠ go "release" := by decide
  have h4 : go "pipeline" ≠ go "commit" := by decide
  have hkeys : ((allActions w.env).map Prod.fst).Nodup := by
    rw [allActions_eq]
    by_cases ht : Getenv w.env (go "CI_COMMIT_TAG") = [] <;> simp [ht, h3, h4]
  have hperm := (rangeMap_perm w hw (allActions w.env) hkeys).filter
    (fun entry => decide (entry.1 ≠ go "pipeline"))
  rw [allActions_eq] at hperm
  by_cases ht : Getenv w.env (go "CI_COMMIT_TAG") = []
  · simp only [ht, ne_eq, not_true_eq_false, if_false] at hperm ⊢
    rw [List.filter_cons, List.filter_cons] at hperm
    simp [h2] at hperm
    rw [allActions_eq]
    simp only [ht, ne_eq, not_true_eq_false, if_false]
    simp [hperm]
  · simp only [ht, ne_eq, not_false_eq_true, if_true] at hperm ⊢
    rw [List.filter_cons, List.filter_cons] at hperm
    simp [h1] at hperm
    rw [allActions_eq]
    simp only [ht, ne_eq, not_false_eq_true, if_true]
    simp [hperm]

/-! ## The claims -/

/-- C1. When `PLUGIN_FACTS` is non-empty, the facts that `createFactsSection` emits are
the comma-separated names of `PLUGIN_FACTS`, each whitespace-trimmed, with the
names outside the catalog (project, message, version) dropped and the others
replaced by their catalog fact, in the order of the list; for `version,project`
these are exactly two facts, titled `Version:` and then `Project:`. -/
theorem createFactsSection_requested (w : World) (projectVersion : GoString)
    (h : Getenv w.env (go "PLUGIN_FACTS") ≠ []) :
    emittedFacts (createFactsSection w projectVersion)
        = (listedNames (Getenv w.env (go "PLUGIN_FACTS"))).filterMap
            (factCatalog w.env projectVersion)
      ∧ (Getenv w.env (go "PLUGIN_FACTS") = go "version,project" →
          emittedFacts (createFactsSection w projectVersion)
              = [factOf (go "Version:") projectVersion,
                 factOf (go "Project:") (Getenv w.env (go "CI_REPO"))]
            ∧ (emittedFacts (createFactsSection w projectVersion)).map
                  (fun fact => fact.field "title")
              = [some (go "Version:"), some (go "Project:")]) := by
  have hsel : emittedFacts (createFactsSection w projectVersion)
      = (listedNames (Getenv w.env (go "PLUGIN_FACTS"))).filterMap
          (factCatalog w.env projectVersion) := by
    rw [emittedFacts_createFactsSection, selectedFacts_requested w projectVersion h]
  refine ⟨hsel, fun hv => ?_⟩
  have hnames : listedNames (go "version,project") = [go "version", go "project"] := by decide
  have h1 : go "version" ≠ go "project" := by decide
  have h2 : go "version" ≠ go "message" := by decide
  have hfacts : emittedFacts (createFactsSection w projectVersion)
      = [factOf (go "Version:") projectVersion,
         factOf (go "Project:") (Getenv w.env (go "CI_REPO"))] := by
    rw [hsel, hv, hnames]
    simp [List.filterMap_cons, factCatalog, h1, h2]
  refine ⟨hfacts, ?_⟩
  rw [hfacts]
  simp [factOf, Value.field, Value.get?, List.lookup, Value.str?]

/-- The selection `version,project` with `CI_REPO=acme/site` at version `v1.2.3`. -/
theorem createFactsSection_requested_witness :
    Getenv (quietWorld ["PLUGIN_FACTS=version,project", "CI_REPO=acme/site"]).env
        (go "PLUGIN_FACTS") = go "version,project"
      ∧ emittedFacts
          (createFactsSection (quietWorld ["PLUGIN_FACTS=version,project", "CI_REPO=acme/site"])
            (go "v1.2.3"))
        = [factOf (go "Version:") (go "v1.2.3"), factOf (go "Project:") (go "acme/site")] :=
  ⟨by decide,
   (((createFactsSection_requested
      (quietWorld ["PLUGIN_FACTS=version,project", "CI_REPO=acme/site"]) (go "v1.2.3")
      (by decide)).2 (by decide)).1).trans (by rfl)⟩

/-- C2. With `CI_COMMIT_TAG` unset and the non-empty hash `abc` in `CI_COMMIT_SHA`,
`getProjectVersion` returns no version at all: the slice `sha[:7]` panics, where
the specification has the first 7 characters of the hash returned. -/
theorem getProjectVersion_short_hash :
    Getenv [go "CI_COMMIT_SHA=abc"] (go "CI_COMMIT_TAG") = []
      ∧ Getenv [go "CI_COMMIT_SHA=abc"] (go "CI_COMMIT_SHA") = go "abc"
      ∧ getProjectVersion [go "CI_COMMIT_SHA=abc"] = .error (.sliceBounds 7 3)
      ∧ ∀ version, getProjectVersion [go "CI_COMMIT_SHA=abc"] ≠ .ok version := by
  have hrun : getProjectVersion [go "CI_COMMIT_SHA=abc"] = .error (.sliceBounds 7 3) := by
    rfl
  refine ⟨by decide, by decide, hrun, fun version hv => ?_⟩
  rw [hrun] at hv
  cases hv

/-- C3. The header block of the body of `createCardBody` has style and text colour
`attention` and title `❌ Pipeline failed` if and only if the effective status
(`PLUGIN_STATUS` when non-empty, else `DRONE_BUILD_STATUS`) is exactly `failure`;
for every other effective status, the empty one included, it has style and
text colour `good` and title `✔ Pipeline succeeded`. -/
theorem createCardBody_effective_status (w : World) (projectVersion : GoString) :
    ((headerStyle (createCardBody w projectVersion).2 = some (go "attention")
        ∧ headerColor (createCardBody w projectVersion).2 = some (go "attention")
        ∧ headerTitle (createCardBody w projectVersion).2 = some (go "❌ Pipeline failed"))
      ↔ effectiveStatus w.env = go "failure")
    ∧ ((headerStyle (createCardBody w projectVersion).2 = some (go "good")
        ∧ headerColor (createCardBody w projectVersion).2 = some (go "good")
        ∧ headerTitle (createCardBody w projectVersion).2 = some (go "✔ Pipeline succeeded"))
      ↔ effectiveStatus w.env ≠ go "failure") := by
  obtain ⟨hstyle, hcolor, htitle⟩ := createCardBody_header w projectVersion
  have hne : go "good" ≠ go "attention" := by decide
  rw [hstyle, hcolor, htitle]
  by_cases hs : effectiveStatus w.env = go "failure"
  · simp [statusColor, statusTitle, hs, hne.symm]
  · simp [statusColor, statusTitle, hs, hne]

/-- C4, as stated, fails: with `PLUGIN_STATUS` unset (so not `failure`) and
`DRONE_BUILD_STATUS=failure` the title is `❌ Pipeline failed` and the colour
`attention`, not `✔ Pipeline succeeded` and `good`. -/
theorem createCardBody_override_unset_counterexample :
    Getenv (quietWorld ["DRONE_BUILD_STATUS=failure"]).env (go "PLUGIN_STATUS") ≠ go "failure"
      ∧ headerTitle (createCardBody (quietWorld ["DRONE_BUILD_STATUS=failure"]) (go "abcdef1")).2
          = some (go "❌ Pipeline failed")
      ∧ headerColor (createCardBody (quietWorld ["DRONE_BUILD_STATUS=failure"]) (go "abcdef1")).2
          = some (go "attention")
      ∧ ¬ (headerTitle (createCardBody (quietWorld ["DRONE_BUILD_STATUS=failure"]) (go "abcdef1")).2
            = some (go "✔ Pipeline succeeded")
          ∧ headerColor (createCardBody (quietWorld ["DRONE_BUILD_STATUS=failure"]) (go "abcdef1")).2
            = some (go "good")) := by
  decide

/-- C4, amended. When the override `PLUGIN_STATUS` is `failure` the title is
`❌ Pipeline failed` and the colour `attention`; for every other non-empty
override the title is `✔ Pipeline succeeded` and the colour `good`; when the
override is unset or empty, title and colour are those of `DRONE_BUILD_STATUS`:
failed and `attention` when it is `failure`, succeeded and `good` otherwise. -/
theorem createCardBody_override (w : World) (projectVersion : GoString) :
    (Getenv w.env (go "PLUGIN_STATUS") = go "failure" →
        headerTitle (createCardBody w projectVersion).2 = some (go "❌ Pipeline failed")
          ∧ headerColor (createCardBody w projectVersion).2 = some (go "attention"))
      ∧ (Getenv w.env (go "PLUGIN_STATUS") ≠ [] →
          Getenv w.env (go "PLUGIN_STATUS") ≠ go "failure" →
          headerTitle (createCardBody w projectVersion).2 = some (go "✔ Pipeline succeeded")
            ∧ headerColor (createCardBody w projectVersion).2 = some (go "good"))
      ∧ (Getenv w.env (go "PLUGIN_STATUS") = [] →
          (Getenv w.env (go "DRONE_BUILD_STATUS") = go "failure" →
            headerTitle (createCardBody w projectVersion).2 = some (go "❌ Pipeline failed")
              ∧ headerColor (createCardBody w projectVersion).2 = some (go "attention"))
          ∧ (Getenv w.env (go "DRONE_BUILD_STATUS") ≠ go "failure" →
            headerTitle (createCardBody w projectVersion).2 = some (go "✔ Pipeline succeeded")
              ∧ headerColor (createCardBody w projectVersion).2 = some (go "good"))) := by
  obtain ⟨_, hcolor, htitle⟩ := createCardBody_header w projectVersion
  have hne : go "failure" ≠ [] := by decide
  rw [hcolor, htitle]
  refine ⟨fun ho => ?_, fun ho hs => ?_, fun ho => ⟨fun hs => ?_, fun hs => ?_⟩⟩
  · simp [statusColor, statusTitle, effectiveStatus, ho, hne]
  · simp [statusColor, statusTitle, effectiveStatus, ho, hs]
  · simp [statusColor, statusTitle, effectiveStatus, ho, hs]
  · simp [statusColor, statusTitle, effectiveStatus, ho, hs]

/-- The three cases of the amended C4: the override `failure` over a successful
build, the override `success` over a failed build, and no override over a
failed build. -/
theorem createCardBody_override_witness :
    (Getenv (quietWorld ["PLUGIN_STATUS=failure", "DRONE_BUILD_STATUS=success"]).env
          (go "PLUGIN_STATUS") = go "failure"
        ∧ headerTitle (createCardBody
            (quietWorld ["PLUGIN_STATUS=failure", "DRONE_BUILD_STATUS=success"]) (go "abcdef1")).2
          = some (go "❌ Pipeline failed")
        ∧ headerColor (createCardBody
            (quietWorld ["PLUGIN_STATUS=failure", "DRONE_BUILD_STATUS=success"]) (go "abcdef1")).2
          = some (go "attention"))
      ∧ (Getenv (quietWorld ["PLUGIN_STATUS=success", "DRONE_BUILD_STATUS=failure"]).env
          (go "PLUGIN_STATUS") = go "success"
        ∧ headerTitle (createCardBody
            (quietWorld ["PLUGIN_STATUS=success", "DRONE_BUILD_STATUS=failure"]) (go "abcdef1")).2
          = some (go "✔ Pipeline succeeded")
        ∧ headerColor (createCardBody
            (quietWorld ["PLUGIN_STATUS=success", "DRONE_BUILD_STATUS=failure"]) (go "abcdef1")).2
          = some (go "good"))
      ∧ (Getenv (quietWorld ["DRONE_BUILD_STATUS=failure"]).env (go "PLUGIN_STATUS") = []
        ∧ headerTitle (createCardBody (quietWorld ["DRONE_BUILD_STATUS=failure"]) (go "abcdef1")).2
          = some (go "❌ Pipeline failed")
        ∧ headerColor (createCardBody (quietWorld ["DRONE_BUILD_STATUS=failure"]) (go "abcdef1")).2
          = some (go "attention")) :=
  ⟨⟨by decide,
    (createCardBody_override
      (quietWorld ["PLUGIN_STATUS=failure", "DRONE_BUILD_STATUS=success"]) (go "abcdef1")).1
      (by decide)⟩,
   ⟨by decide,
    (createCardBody_override
      (quietWorld ["PLUGIN_STATUS=success", "DRONE_BUILD_STATUS=failure"]) (go "abcdef1")).2.1
      (by decide) (by decide)⟩,
   ⟨by decide,
    ((createCardBody_override (quietWorld ["DRONE_BUILD_STATUS=failure"]) (go "abcdef1")).2.2
      (by decide)).1 (by decide)⟩⟩

/-- C5. The catalog of `createCardActions`: with a non-empty `CI_COMMIT_TAG` it holds
`release`, whose url is `CI_REPO_URL` followed by `/releases/tag/` and the tag,
and no `commit`; with `CI_COMMIT_TAG` empty or unset it holds `commit`, whose url
is `CI_PIPELINE_FORGE_URL`, and no `release`; `pipeline` is in it in both cases,
with url `CI_PIPELINE_URL`. -/
theorem allActions_catalog (env : Env) :
    (Getenv env (go "CI_COMMIT_TAG") ≠ [] →
        (allActions env).lookup (go "release")
            = some (actionOf (go "View Release")
                (Getenv env (go "CI_REPO_URL") ++ go "/releases/tag/"
                  ++ Getenv env (go "CI_COMMIT_TAG")))
          ∧ (allActions env).lookup (go "commit") = none
          ∧ (allActions env).map Prod.fst = [go "pipeline", go "release"])
      ∧ (Getenv env (go "CI_COMMIT_TAG") = [] →
        (allActions env).lookup (go "commit")
            = some (actionOf (go "View Commit") (Getenv env (go "CI_PIPELINE_FORGE_URL")))
          ∧ (allActions env).lookup (go "release") = none
          ∧ (allActions env).map Prod.fst = [go "pipeline", go "commit"])
      ∧ (allActions env).lookup (go "pipeline")
          = some (actionOf (go "View Pipeline") (Getenv env (go "CI_PIPELINE_URL"))) := by
  have h1 : go "release" ≠ go "pipeline" := by decide
  have h2 : go "commit" ≠ go "pipeline" := by decide
  have h3 : go "commit" ≠ go "release" := by decide
  refine ⟨fun ht => ⟨?_, ?_, ?_⟩, fun ht => ⟨?_, ?_, ?_⟩, ?_⟩
  · simp [allActions_lookup, actionCatalog, ht, h1]
  · simp [allActions_lookup, actionCatalog, ht, h2, h3]
  · simp [allActions, getEnvOrDefault_nil, ht]
  · simp [allActions_lookup, actionCatalog, ht, h2]
  · simp [allActions_lookup, actionCatalog, ht, h1, h3.symm]
  · simp [allActions, getEnvOrDefault_nil, ht]
  · simp [allActions_lookup, actionCatalog]

/-- A tagged build and an untagged build. -/
theorem allActions_catalog_witness :
    (Getenv [go "CI_COMMIT_TAG=v1.2.3", go "CI_REPO_URL=https://forge.example/acme/site"]
          (go "CI_COMMIT_TAG") = go "v1.2.3"
        ∧ (allActions [go "CI_COMMIT_TAG=v1.2.3", go "CI_REPO_URL=https://forge.example/acme/site"]).lookup
            (go "release")
          = some (actionOf (go "View Release")
              (go "https://forge.example/acme/site/releases/tag/v1.2.3")))
      ∧ (Getenv [go "CI_PIPELINE_FORGE_URL=https://forge.example/acme/site/commit/abcdef1"]
          (go "CI_COMMIT_TAG") = []
        ∧ (allActions [go "CI_PIPELINE_FORGE_URL=https://forge.example/acme/site/commit/abcdef1"]).lookup
            (go "commit")
          = some (actionOf (go "View Commit")
              (go "https://forge.example/acme/site/commit/abcdef1"))) :=
  ⟨⟨by decide,
    (((allActions_catalog
      [go "CI_COMMIT_TAG=v1.2.3", go "CI_REPO_URL=https://forge.example/acme/site"]).1
      (by decide)).1).trans (by rfl)⟩,
   ⟨by decide,
    (((allActions_catalog
      [go "CI_PIPELINE_FORGE_URL=https://forge.example/acme/site/commit/abcdef1"]).2.1
      (by decide)).1).trans (by rfl)⟩⟩

/-- C6. When `PLUGIN_BUTTONS` is non-empty, `createCardActions` returns the actions named
by its comma-separated, whitespace-trimmed entries that are in the current
catalog, in the order of the list; names outside the catalog are dropped, among
them `release` without a tag and `commit` with one, and `pipeline` is not moved
to the front: `commit,pipeline` without a tag gives View Commit and then View
Pipeline. -/
theorem createCardActions_listed (w : World) (h : Getenv w.env (go "PLUGIN_BUTTONS") ≠ []) :
    createCardActions w
        = (listedNames (Getenv w.env (go "PLUGIN_BUTTONS"))).filterMap
            (fun name => (allActions w.env).lookup name)
      ∧ (Getenv w.env (go "CI_COMMIT_TAG") = [] → (allActions w.env).lookup (go "release") = none)
      ∧ (Getenv w.env (go "CI_COMMIT_TAG") ≠ [] → (allActions w.env).lookup (go "commit") = none)
      ∧ (Getenv w.env (go "PLUGIN_BUTTONS") = go "commit,pipeline" →
          Getenv w.env (go "CI_COMMIT_TAG") = [] →
          createCardActions w
            = [actionOf (go "View Commit") (Getenv w.env (go "CI_PIPELINE_FORGE_URL")),
               actionOf (go "View Pipeline") (Getenv w.env (go "CI_PIPELINE_URL"))]) := by
  have h1 : go "release" ≠ go "pipeline" := by decide
  have h2 : go "commit" ≠ go "pipeline" := by decide
  have h3 : go "commit" ≠ go "release" := by decide
  have hnames : listedNames (go "commit,pipeline") = [go "commit", go "pipeline"] := by decide
  have hsel := createCardActions_requested w h
  refine ⟨?_, fun ht => ?_, fun ht => ?_, fun hb ht => ?_⟩
  · rw [hsel]
    congr 1
    funext name
    exact (allActions_lookup w.env name).symm
  · simp [allActions_lookup, actionCatalog, ht, h1, h3.symm]
  · simp [allActions_lookup, actionCatalog, ht, h2, h3]
  · rw [hsel, hb, hnames]
    simp [List.filterMap_cons, actionCatalog, ht, h2]

/-- The list `commit, pipeline ,release` (with blanks) on an untagged build:
`release` is dropped and `commit` stays in front of `pipeline`. -/
theorem createCardActions_listed_witness :
    Getenv (quietWorld ["PLUGIN_BUTTONS=commit, pipeline ,release",
          "CI_PIPELINE_FORGE_URL=https://forge.example/c/abcdef1",
          "CI_PIPELINE_URL=https://ci.example/42"]).env (go "PLUGIN_BUTTONS")
        = go "commit, pipeline ,release"
      ∧ createCardActions
          (quietWorld ["PLUGIN_BUTTONS=commit, pipeline ,release",
            "CI_PIPELINE_FORGE_URL=https://forge.example/c/abcdef1",
            "CI_PIPELINE_URL=https://ci.example/42"])
        = [actionOf (go "View Commit") (go "https://forge.example/c/abcdef1"),
           actionOf (go "View Pipeline") (go "https://ci.example/42")] :=
  ⟨by decide,
   ((createCardActions_listed
      (quietWorld ["PLUGIN_BUTTONS=commit, pipeline ,release",
        "CI_PIPELINE_FORGE_URL=https://forge.example/c/abcdef1",
        "CI_PIPELINE_URL=https://ci.example/42"]) (by decide)).1).trans (by rfl)⟩

/-- C7. When `PLUGIN_VARIABLES` is unset or empty the body of `createCardBody` has no
`Variables:` text block and no table. When it is non-empty the body has the
`Variables:` text block and one table, with one row per comma-separated entry
in list order, each row having two cells: the whitespace-trimmed name and the
value of the environment variable of that name (empty when unset); for
`FOO,BAR` with `FOO=1` and `BAR` unset the rows are (FOO, 1) and (BAR, empty). -/
theorem createCardBody_variables (w : World) (projectVersion : GoString) :
    (Getenv w.env (go "PLUGIN_VARIABLES") = [] →
        blocksOfType (createCardBody w projectVersion).2 (go "TextBlock") = []
          ∧ blocksOfType (createCardBody w projectVersion).2 (go "Table") = [])
      ∧ (Getenv w.env (go "PLUGIN_VARIABLES") ≠ [] →
        (blocksOfType (createCardBody w projectVersion).2 (go "TextBlock")).map
            (fun block => block.field "text") = [some (go "Variables:")]
          ∧ (blocksOfType (createCardBody w projectVersion).2 (go "Table")).map
              (fun block => block.children "rows")
            = [some ((listedNames (Getenv w.env (go "PLUGIN_VARIABLES"))).map
                fun name => createTableRow name (Getenv w.env name))])
      ∧ (∀ name value, rowTexts (createTableRow name value) = some [some name, some value])
      ∧ (Getenv w.env (go "PLUGIN_VARIABLES") = go "FOO,BAR" →
          Getenv w.env (go "FOO") = go "1" → Getenv w.env (go "BAR") = [] →
          (blocksOfType (createCardBody w projectVersion).2 (go "Table")).map
              (fun block => (block.children "rows").map (List.map rowTexts))
            = [some [some [some (go "FOO"), some (go "1")],
                     some [some (go "BAR"), some []]]]) := by
  have h1 : go "TextBlock" ≠ go "Container" := by decide
  have h2 : go "Table" ≠ go "Container" := by decide
  have hne : go "FOO,BAR" ≠ [] := by decide
  have hnames : listedNames (go "FOO,BAR") = [go "FOO", go "BAR"] := by decide
  obtain ⟨avatar, hb⟩ := createCardBody_body w projectVersion
  rw [hb]
  refine ⟨fun hv => ?_, fun hv => ?_, rowTexts_createTableRow, fun hv hfoo hbar => ?_⟩
  · simp only [hv, ne_eq, not_true_eq_false, if_false]
    exact ⟨blocksOfType_createBaseBody _ _ _ _ _ _ _ h1,
      blocksOfType_createBaseBody _ _ _ _ _ _ _ h2⟩
  · simp only [hv, ne_eq, not_false_eq_true, if_true]
    rw [← variableRows_eq]
    exact appendVariablesTable_blocks w _ _ _ _ _ _
  · have hrows := (appendVariablesTable_blocks w (statusColor (effectiveStatus w.env))
      (statusTitle (effectiveStatus w.env)) avatar w.now projectVersion (go "FOO,BAR")).2
    rw [variableRows_eq, hnames] at hrows
    simp only [hv, hne, ne_eq, not_false_eq_true, if_true]
    have hmap := congrArg (List.map (Option.map (List.map rowTexts))) hrows
    simp only [List.map_map] at hmap
    simpa [rowTexts_createTableRow, hfoo, hbar, Function.comp_def] using hmap

/-- The list `FOO,BAR` with `FOO=1` and `BAR` unset; and no list at all. -/
theorem createCardBody_variables_witness :
    (Getenv (quietWorld ["CI_REPO=acme/site"]).env (go "PLUGIN_VARIABLES") = []
        ∧ blocksOfType (createCardBody (quietWorld ["CI_REPO=acme/site"]) (go "abcdef1")).2
            (go "Table") = [])
      ∧ (Getenv (quietWorld ["PLUGIN_VARIABLES=FOO,BAR", "FOO=1"]).env (go "PLUGIN_VARIABLES")
          = go "FOO,BAR"
        ∧ (blocksOfType (createCardBody (quietWorld ["PLUGIN_VARIABLES=FOO,BAR", "FOO=1"])
              (go "abcdef1")).2 (go "Table")).map
            (fun block => (block.children "rows").map (List.map rowTexts))
          = [some [some [some (go "FOO"), some (go "1")],
                   some [some (go "BAR"), some []]]]) :=
  ⟨⟨by decide,
    ((createCardBody_variables (quietWorld ["CI_REPO=acme/site"]) (go "abcdef1")).1
      (by decide)).2⟩,
   ⟨by decide,
    (createCardBody_variables (quietWorld ["PLUGIN_VARIABLES=FOO,BAR", "FOO=1"])
      (go "abcdef1")).2.2.2 (by decide) (by decide) (by decide)⟩⟩

/-- C8. When `PLUGIN_FACTS` is unset or empty, `createFactsSection` emits exactly three
facts, a permutation of the three catalog facts: `Project:` with the value of
`CI_REPO`, `Message:` with the first line of `CI_COMMIT_MESSAGE`, and `Version:`
with the project version. -/
theorem createFactsSection_all (w : World) (projectVersion : GoString) (hw : w.FairOrder)
    (h : Getenv w.env (go "PLUGIN_FACTS") = []) :
    (emittedFacts (createFactsSection w projectVersion)).Perm
        [factOf (go "Project:") (Getenv w.env (go "CI_REPO")),
         factOf (go "Message:") (firstLine (Getenv w.env (go "CI_COMMIT_MESSAGE"))),
         factOf (go "Version:") projectVersion]
      ∧ (emittedFacts (createFactsSection w projectVersion)).length = 3 := by
  have hperm := selectedFacts_all w projectVersion hw h
  rw [emittedFacts_createFactsSection]
  exact ⟨hperm, by simpa using hperm.length_eq⟩

/-- A map visited in reverse order, with a message of several lines. -/
theorem createFactsSection_all_witness :
    Getenv (reversedWorld ["CI_REPO=acme/site", "CI_COMMIT_MESSAGE=fix build\n\nsee the log"]).env
        (go "PLUGIN_FACTS") = []
      ∧ (emittedFacts (createFactsSection
          (reversedWorld ["CI_REPO=acme/site", "CI_COMMIT_MESSAGE=fix build\n\nsee the log"])
          (go "abcdef1"))).Perm
          [factOf (go "Project:") (go "acme/site"), factOf (go "Message:") (go "fix build"),
           factOf (go "Version:") (go "abcdef1")]
      ∧ (emittedFacts (createFactsSection
          (reversedWorld ["CI_REPO=acme/site", "CI_COMMIT_MESSAGE=fix build\n\nsee the log"])
          (go "abcdef1"))).length = 3 :=
  ⟨by decide,
   ((createFactsSection_all
      (reversedWorld ["CI_REPO=acme/site", "CI_COMMIT_MESSAGE=fix build\n\nsee the log"])
      (go "abcdef1") (fun keys => List.reverse_perm keys) (by decide)).1).trans
      (List.Perm.of_eq (by rfl)),
   (createFactsSection_all
      (reversedWorld ["CI_REPO=acme/site", "CI_COMMIT_MESSAGE=fix build\n\nsee the log"])
      (go "abcdef1") (fun keys => List.reverse_perm keys) (by decide)).2⟩

/-- C9. The function `createFactsSection` returns no block exactly when the list of selected
facts is empty, that is when `PLUGIN_FACTS` is non-empty and none of its trimmed
entries is a catalog name; the body of `createBaseBody` is then the header block
alone, with no fact set in it; and a section that is returned holds at least
one fact and is the second and last block of the base body. -/
theorem createFactsSection_none_iff (w : World) (projectVersion : GoString)
    (hw : w.FairOrder) :
    (createFactsSection w projectVersion = none ↔ selectedFacts w projectVersion = [])
      ∧ (createFactsSection w projectVersion = none ↔
          Getenv w.env (go "PLUGIN_FACTS") ≠ []
            ∧ ∀ name ∈ listedNames (Getenv w.env (go "PLUGIN_FACTS")),
                name ≠ go "project" ∧ name ≠ go "message" ∧ name ≠ go "version")
      ∧ (createFactsSection w projectVersion = none →
          ∀ color title avatarDataURI dateStr,
            (createBaseBody w color title avatarDataURI dateStr projectVersion).length = 1
              ∧ ∀ block ∈ createBaseBody w color title avatarDataURI dateStr projectVersion,
                  blocksOfType ((block.children "items").getD []) (go "FactSet") = [])
      ∧ (∀ block, createFactsSection w projectVersion = some block →
          emittedFacts (some block) ≠ []
            ∧ (blocksOfType ((block.children "items").getD []) (go "FactSet")).length = 1
            ∧ ∀ color title avatarDataURI dateStr,
                (createBaseBody w color title avatarDataURI dateStr projectVersion).length = 2
                  ∧ (createBaseBody w color title avatarDataURI dateStr
                      projectVersion).getLast? = some block) := by
  have h1 : go "TextBlock" ≠ go "FactSet" := by decide
  have h2 : go "ColumnSet" ≠ go "FactSet" := by decide
  refine ⟨createFactsSection_eq_none w projectVersion, ?_, fun hnone => ?_, fun block hb => ?_⟩
  · rw [createFactsSection_eq_none]
    by_cases hf : Getenv w.env (go "PLUGIN_FACTS") = []
    · have hlen := (selectedFacts_all w projectVersion hw hf).length_eq
      constructor
      · intro hnil
        rw [hnil] at hlen
        simp at hlen
      · intro hcontra
        exact absurd hf hcontra.1
    · rw [selectedFacts_requested w projectVersion hf, List.filterMap_eq_nil_iff]
      simp only [factCatalog_eq_none]
      exact ⟨fun hall => ⟨hf, hall⟩, fun hall => hall.2⟩
  · intro color title avatarDataURI dateStr
    unfold createBaseBody
    simp [hnone, blocksOfType, createAuthorSection, Value.children, Value.field, Value.get?,
      List.lookup, Value.str?, Value.list?, h1, h2]
  · obtain ⟨hne, hshape⟩ := createFactsSection_eq_some w projectVersion block hb
    refine ⟨?_, ?_, fun color title avatarDataURI dateStr => ?_⟩
    · rw [← hb, emittedFacts_createFactsSection]
      exact hne
    · rw [hshape]
      simp [blocksOfType, Value.children, Value.field, Value.get?, List.lookup, Value.str?,
        Value.list?]
    · unfold createBaseBody
      simp [hb]

/-- A selection that names no catalog fact, in a world whose maps are visited in
the order of their literal. -/
theorem createFactsSection_none_iff_witness :
    createFactsSection (quietWorld ["PLUGIN_FACTS=author, branch"]) (go "abcdef1") = none
      ∧ (createBaseBody (quietWorld ["PLUGIN_FACTS=author, branch"]) (go "good")
          (go "✔ Pipeline succeeded") [] (go "2024-05-17T08:30:00Z") (go "abcdef1")).length = 1 :=
  ⟨((createFactsSection_none_iff (quietWorld ["PLUGIN_FACTS=author, branch"]) (go "abcdef1")
      (fun keys => List.Perm.refl keys)).2.1).mpr ⟨by decide, by decide⟩,
   (((createFactsSection_none_iff (quietWorld ["PLUGIN_FACTS=author, branch"]) (go "abcdef1")
      (fun keys => List.Perm.refl keys)).2.2.1
      (((createFactsSection_none_iff (quietWorld ["PLUGIN_FACTS=author, branch"]) (go "abcdef1")
        (fun keys => List.Perm.refl keys)).2.1).mpr ⟨by decide, by decide⟩))
      (go "good") (go "✔ Pipeline succeeded") [] (go "2024-05-17T08:30:00Z")).1⟩

/-- C10. When `PLUGIN_BUTTONS` is unset or empty, `createCardActions` returns the `pipeline`
action first and then every other action of the catalog: exactly two actions,
View Pipeline and then View Release when `CI_COMMIT_TAG` is non-empty, View
Commit when it is not. -/
theorem createCardActions_default (w : World) (hw : w.FairOrder)
    (h : Getenv w.env (go "PLUGIN_BUTTONS") = []) :
    createCardActions w
      = [actionOf (go "View Pipeline") (Getenv w.env (go "CI_PIPELINE_URL")),
         if Getenv w.env (go "CI_COMMIT_TAG") ≠ [] then
           actionOf (go "View Release")
             (Getenv w.env (go "CI_REPO_URL") ++ go "/releases/tag/"
               ++ Getenv w.env (go "CI_COMMIT_TAG"))
         else actionOf (go "View Commit") (Getenv w.env (go "CI_PIPELINE_FORGE_URL"))] := by
  have hloop := foldl_collect_if (fun entry : GoString × Value => entry.1 ≠ go "pipeline")
    (fun entry => entry.2) (rangeMap w (allActions w.env))
    [actionOf (go "View Pipeline") (Getenv w.env (go "CI_PIPELINE_URL"))]
  have hpipe : (allActions w.env).lookup (go "pipeline")
      = some (actionOf (go "View Pipeline") (Getenv w.env (go "CI_PIPELINE_URL"))) := by
    simp [allActions_lookup, actionCatalog]
  unfold createCardActions
  simp only [getEnvOrDefault_nil, h, if_true, hpipe]
  rw [hloop, rangeMap_allActions_others w hw]
  rfl

/-- A tagged build whose catalog is visited in reverse order (`release` before
`pipeline`). -/
theorem createCardActions_default_witness :
    createCardActions
        (reversedWorld ["CI_COMMIT_TAG=v1.2.3", "CI_REPO_URL=https://forge.example/acme/site",
          "CI_PIPELINE_URL=https://ci.example/42"])
      = [actionOf (go "View Pipeline") (go "https://ci.example/42"),
         actionOf (go "View Release") (go "https://forge.example/acme/site/releases/tag/v1.2.3")] :=
  (createCardActions_default
    (reversedWorld ["CI_COMMIT_TAG=v1.2.3", "CI_REPO_URL=https://forge.example/acme/site",
      "CI_PIPELINE_URL=https://ci.example/42"])
    (fun keys => List.reverse_perm keys) (by decide)).trans (by rfl)

/-! ## The environment reader and version resolution, in full -/

theorem Getenv_eq_LookupEnv (env : Env) (key : GoString) :
    Getenv env key = (LookupEnv env key).getD [] := by
  unfold Getenv LookupEnv
  by_cases hk : key = []
  · simp [hk]
  · simp only [hk, if_false]
    cases (env.filterMap cutEntry).find? (fun kv => kv.1 == key) <;> rfl

/-- C11. For every key and default, `getEnvOrDefault` returns the value the environment
has for the key when that value is set and non-empty, and the default when the
key is absent or set to the empty string; it is a total function, with no
failure. -/
theorem getEnvOrDefault_contract (env : Env) (key defaultValue : GoString) :
    (∀ value, LookupEnv env key = some value → value ≠ [] →
        getEnvOrDefault env key defaultValue = value)
      ∧ (LookupEnv env key = none → getEnvOrDefault env key defaultValue = defaultValue)
      ∧ (LookupEnv env key = some [] → getEnvOrDefault env key defaultValue = defaultValue)
      ∧ (Getenv env key ≠ [] → getEnvOrDefault env key defaultValue = Getenv env key)
      ∧ (Getenv env key = [] → getEnvOrDefault env key defaultValue = defaultValue) := by
  refine ⟨fun value hv hne => ?_, fun hv => ?_, fun hv => ?_, fun hv => ?_, fun hv => ?_⟩
  · simp [getEnvOrDefault, Getenv_eq_LookupEnv, hv, hne]
  · simp [getEnvOrDefault, Getenv_eq_LookupEnv, hv]
  · simp [getEnvOrDefault, Getenv_eq_LookupEnv, hv]
  · simp [getEnvOrDefault, hv]
  · simp [getEnvOrDefault, hv]

/-- A variable that is set, one that is absent, and one that is set to the empty
string. -/
theorem getEnvOrDefault_contract_witness :
    (LookupEnv [go "PLUGIN_DEBUG=true", go "CI_REPO="] (go "PLUGIN_DEBUG") = some (go "true")
        ∧ getEnvOrDefault [go "PLUGIN_DEBUG=true", go "CI_REPO="] (go "PLUGIN_DEBUG") (go "false")
          = go "true")
      ∧ (LookupEnv [go "PLUGIN_DEBUG=true", go "CI_REPO="] (go "PLUGIN_FACTS") = none
        ∧ getEnvOrDefault [go "PLUGIN_DEBUG=true", go "CI_REPO="] (go "PLUGIN_FACTS") (go "all")
          = go "all")
      ∧ (LookupEnv [go "PLUGIN_DEBUG=true", go "CI_REPO="] (go "CI_REPO") = some []
        ∧ getEnvOrDefault [go "PLUGIN_DEBUG=true", go "CI_REPO="] (go "CI_REPO") (go "none")
          = go "none") :=
  ⟨⟨by decide,
    (getEnvOrDefault_contract [go "PLUGIN_DEBUG=true", go "CI_REPO="] (go "PLUGIN_DEBUG")
      (go "false")).1 (go "true") (by decide) (by decide)⟩,
   ⟨by decide,
    (getEnvOrDefault_contract [go "PLUGIN_DEBUG=true", go "CI_REPO="] (go "PLUGIN_FACTS")
      (go "all")).2.1 (by decide)⟩,
   ⟨by decide,
    (getEnvOrDefault_contract [go "PLUGIN_DEBUG=true", go "CI_REPO="] (go "CI_REPO")
      (go "none")).2.2.1 (by decide)⟩⟩

/-- C12. For every value of `CI_COMMIT_MESSAGE`, the value of the `Message:` fact is the
first line of the message only: what stands before its first newline, or the
whole message when it has none; the value holds no newline, and element 0 of
the split exists, also for the empty message, which gives the empty value. -/
theorem message_fact_first_line (env : Env) (projectVersion : GoString) :
    ((allFacts env projectVersion).lookup (go "message")).bind
          (fun fact => fact.field "value")
        = some (firstLine (Getenv env (go "CI_COMMIT_MESSAGE")))
      ∧ ((allFacts env projectVersion).lookup (go "message")).bind
          (fun fact => fact.field "title") = some (go "Message:")
      ∧ (Split (Getenv env (go "CI_COMMIT_MESSAGE")) 0x0A)[0]?
          = some (firstLine (Getenv env (go "CI_COMMIT_MESSAGE")))
      ∧ 0x0A ∉ firstLine (Getenv env (go "CI_COMMIT_MESSAGE"))
      ∧ (0x0A ∉ Getenv env (go "CI_COMMIT_MESSAGE") →
          firstLine (Getenv env (go "CI_COMMIT_MESSAGE")) = Getenv env (go "CI_COMMIT_MESSAGE"))
      ∧ (∀ before after, Getenv env (go "CI_COMMIT_MESSAGE") = before ++ 0x0A :: after →
          0x0A ∉ before → firstLine (Getenv env (go "CI_COMMIT_MESSAGE")) = before)
      ∧ (Getenv env (go "CI_COMMIT_MESSAGE") = [] →
          firstLine (Getenv env (go "CI_COMMIT_MESSAGE")) = []) := by
  have h1 : go "message" ≠ go "project" := by decide
  refine ⟨?_, ?_, ?_, ?_, fun hno => ?_, fun before after hmsg hno => ?_, fun hmsg => ?_⟩
  · rw [allFacts_lookup]
    simp [factCatalog, h1, factOf, Value.field, Value.get?, List.lookup, Value.str?]
  · rw [allFacts_lookup]
    simp [factCatalog, h1, factOf, Value.field, Value.get?, List.lookup, Value.str?]
  · rw [← List.head?_eq_getElem?]
    exact Split_head? _ _
  · intro hmem
    have := List.mem_takeWhile_imp hmem
    simp at this
  · unfold firstLine
    rw [List.takeWhile_eq_self_iff]
    intro b hb
    have hne : b ≠ 0x0A := fun h => hno (h ▸ hb)
    simpa using hne
  · rw [hmsg]
    unfold firstLine
    rw [List.takeWhile_append_of_pos]
    · simp
    · intro b hb
      have hne : b ≠ 0x0A := fun h => hno (h ▸ hb)
      simpa using hne
  · rw [hmsg]
    rfl

/-- A message of three lines, and the empty message. -/
theorem message_fact_first_line_witness :
    (Getenv [go "CI_COMMIT_MESSAGE=fix build\n\nsee the log"] (go "CI_COMMIT_MESSAGE")
          = go "fix build" ++ 0x0A :: go "\nsee the log"
        ∧ firstLine (Getenv [go "CI_COMMIT_MESSAGE=fix build\n\nsee the log"]
            (go "CI_COMMIT_MESSAGE")) = go "fix build")
      ∧ (Getenv [] (go "CI_COMMIT_MESSAGE") = []
        ∧ firstLine (Getenv [] (go "CI_COMMIT_MESSAGE")) = []) :=
  ⟨⟨by decide,
    (message_fact_first_line [go "CI_COMMIT_MESSAGE=fix build\n\nsee the log"] []).2.2.2.2.2.1
      (go "fix build") (go "\nsee the log") (by decide) (by decide)⟩,
   ⟨by decide, (message_fact_first_line [] []).2.2.2.2.2.2 (by decide)⟩⟩

/-- C19. The function `getProjectVersion` panics on the slice `sha[:7]` if and only if
`CI_COMMIT_TAG` is empty or unset and `CI_COMMIT_SHA` is non-empty with fewer than
7 bytes; in every other environment it returns a string, and a prefix of the
hash that it returns is exactly 7 bytes long. -/
theorem getProjectVersion_panic_iff (env : Env) :
    ((∃ p, getProjectVersion env = .error p) ↔
        Getenv env (go "CI_COMMIT_TAG") = [] ∧ Getenv env (go "CI_COMMIT_SHA") ≠ []
          ∧ (Getenv env (go "CI_COMMIT_SHA")).length < 7)
      ∧ (¬ (Getenv env (go "CI_COMMIT_TAG") = [] ∧ Getenv env (go "CI_COMMIT_SHA") ≠ []
            ∧ (Getenv env (go "CI_COMMIT_SHA")).length < 7) →
          ∃ version, getProjectVersion env = .ok version)
      ∧ (∀ p, getProjectVersion env = .error p →
          p = .sliceBounds 7 (Getenv env (go "CI_COMMIT_SHA")).length)
      ∧ (Getenv env (go "CI_COMMIT_TAG") ≠ [] →
          getProjectVersion env = .ok (Getenv env (go "CI_COMMIT_TAG")))
      ∧ (Getenv env (go "CI_COMMIT_TAG") = [] → Getenv env (go "CI_COMMIT_SHA") = [] →
          getProjectVersion env = .ok [])
      ∧ (Getenv env (go "CI_COMMIT_TAG") = [] → 7 ≤ (Getenv env (go "CI_COMMIT_SHA")).length →
          getProjectVersion env = .ok ((Getenv env (go "CI_COMMIT_SHA")).take 7)
            ∧ ((Getenv env (go "CI_COMMIT_SHA")).take 7).length = 7
            ∧ (Getenv env (go "CI_COMMIT_SHA")).take 7 <+: Getenv env (go "CI_COMMIT_SHA")) := by
  unfold getProjectVersion
  simp only [getEnvOrDefault_nil]
  by_cases ht : Getenv env (go "CI_COMMIT_TAG") = []
  · by_cases hs : Getenv env (go "CI_COMMIT_SHA") = []
    · simp [ht, hs]
    · by_cases hl : 7 ≤ (Getenv env (go "CI_COMMIT_SHA")).length
      · have hlt : ¬ (Getenv env (go "CI_COMMIT_SHA")).length < 7 := by omega
        simp [ht, hs, hl, hlt, List.take_prefix]
      · have hlt : (Getenv env (go "CI_COMMIT_SHA")).length < 7 := by omega
        simp [ht, hs, hl, hlt]
  · simp [ht]

/-- A hash of 3 bytes, a hash of 13 bytes and a tag. -/
theorem getProjectVersion_panic_iff_witness :
    (∃ p, getProjectVersion [go "CI_COMMIT_SHA=abc"] = .error p)
      ∧ (∃ version, getProjectVersion [go "CI_COMMIT_SHA=abcdef1234567"] = .ok version)
      ∧ getProjectVersion [go "CI_COMMIT_TAG=v1.2.3", go "CI_COMMIT_SHA=abc"]
          = .ok (Getenv [go "CI_COMMIT_TAG=v1.2.3", go "CI_COMMIT_SHA=abc"] (go "CI_COMMIT_TAG")) :=
  ⟨(getProjectVersion_panic_iff [go "CI_COMMIT_SHA=abc"]).1.mpr
      ⟨by decide, by decide, by decide⟩,
   (getProjectVersion_panic_iff [go "CI_COMMIT_SHA=abcdef1234567"]).2.1 (by decide),
   (getProjectVersion_panic_iff [go "CI_COMMIT_TAG=v1.2.3", go "CI_COMMIT_SHA=abc"]).2.2.2.1
      (by decide)⟩

/-! ## The avatar -/

/-- The body of `createCardBody`, with its avatar source. -/
theorem createCardBody_body_avatar (w : World) (projectVersion : GoString) :
    (createCardBody w projectVersion).2 =
      if Getenv w.env (go "PLUGIN_VARIABLES") ≠ [] then
        appendVariablesTable w.env
          (createBaseBody w (statusColor (effectiveStatus w.env))
            (statusTitle (effectiveStatus w.env)) (avatarSource w) w.now projectVersion)
          (Getenv w.env (go "PLUGIN_VARIABLES"))
      else
        createBaseBody w (statusColor (effectiveStatus w.env))
          (statusTitle (effectiveStatus w.env)) (avatarSource w) w.now projectVersion := by
  have hne : go "failure" ≠ [] := by decide
  unfold createCardBody effectiveStatus statusColor statusTitle avatarSource
  simp only [getEnvOrDefault_nil]
  by_cases ha : Getenv w.env (go "CI_COMMIT_AUTHOR_AVATAR") = []
  · by_cases ho : Getenv w.env (go "PLUGIN_STATUS") = []
    · by_cases hs : Getenv w.env (go "DRONE_BUILD_STATUS") = go "failure" <;>
        simp [ho, hs, ha]
    · by_cases hs : Getenv w.env (go "PLUGIN_STATUS") = go "failure"
      · simp [hs, ha, hne]
      · simp [ho, hs, ha]
  · cases hg : getAvatarDataURI w (Getenv w.env (go "CI_COMMIT_AUTHOR_AVATAR")) <;>
    · by_cases ho : Getenv w.env (go "PLUGIN_STATUS") = []
      · by_cases hs : Getenv w.env (go "DRONE_BUILD_STATUS") = go "failure" <;>
          simp [ho, hs, ha]
      · by_cases hs : Getenv w.env (go "PLUGIN_STATUS") = go "failure"
        · simp [hs, ha, hne]
        · simp [ho, hs, ha]

/-- The image of the author section shows the avatar source. -/
theorem avatarImageUrl_createCardBody (w : World) (projectVersion : GoString) :
    avatarImageUrl (createCardBody w projectVersion).2 = some (avatarSource w) := by
  rw [createCardBody_body_avatar]
  unfold createBaseBody appendVariablesTable
  split <;> cases createFactsSection w projectVersion <;>
    simp [avatarImageUrl, headerBlock, createAuthorSection, Value.field, Value.children,
      Value.get?, List.lookup, Value.str?, Value.list?]

/-- The function `getAvatarDataURI` fails exactly when the request fails in transport or
the body cannot be read; the status of the response plays no part. -/
theorem getAvatarDataURI_error_iff (w : World) (avatarURL : GoString) :
    (∃ err, getAvatarDataURI w avatarURL = .error err) ↔
      (∃ err, w.httpGet avatarURL = .error err)
        ∨ ∃ resp err, w.httpGet avatarURL = .ok resp ∧ resp.body = .error err := by
  unfold getAvatarDataURI
  cases hget : w.httpGet avatarURL with
  | error err => simp
  | ok resp =>
    cases hread : resp.body with
    | error err => simp [hread]
    | ok payload => simp [hread]

/-- On a transport error or an unreadable body the image shows the avatar
reference itself. -/
theorem avatarImageUrl_fallback (w : World) (projectVersion : GoString)
    (hset : Getenv w.env (go "CI_COMMIT_AUTHOR_AVATAR") ≠ [])
    (hfail : (∃ err, w.httpGet (Getenv w.env (go "CI_COMMIT_AUTHOR_AVATAR")) = .error err)
      ∨ ∃ resp err, w.httpGet (Getenv w.env (go "CI_COMMIT_AUTHOR_AVATAR")) = .ok resp
          ∧ resp.body = .error err) :
    avatarImageUrl (createCardBody w projectVersion).2
      = some (Getenv w.env (go "CI_COMMIT_AUTHOR_AVATAR")) := by
  obtain ⟨err, herr⟩ := (getAvatarDataURI_error_iff w _).mpr hfail
  rw [avatarImageUrl_createCardBody]
  simp [avatarSource, hset, herr]

/-- The encoding has four characters for every three bytes begun. -/
theorem EncodeToString_length (payload : GoString) :
    (EncodeToString payload).length = 4 * ((payload.length + 2) / 3) := by
  induction payload using EncodeToString.induct with
  | case1 => rfl
  | case2 a => simp [EncodeToString]
  | case3 a b => simp [EncodeToString]
  | case4 a b c rest ih =>
    simp only [EncodeToString, List.length_append, List.length_cons, List.length_nil, ih]
    omega

/-- The examples of RFC 4648. -/
theorem EncodeToString_examples :
    EncodeToString (go "") = go ""
      ∧ EncodeToString (go "f") = go "Zg=="
      ∧ EncodeToString (go "fo") = go "Zm8="
      ∧ EncodeToString (go "foo") = go "Zm9v"
      ∧ EncodeToString (go "foob") = go "Zm9vYg=="
      ∧ EncodeToString (go "fooba") = go "Zm9vYmE="
      ∧ EncodeToString (go "foobar") = go "Zm9vYmFy"
      ∧ EncodeToString [0xFB, 0xFF, 0xBE] = go "+/++" := by
  decide

/-- C13. With `CI_COMMIT_AUTHOR_AVATAR` set and the fetch answered by a 404 response,
the url of the image is not the avatar reference: `getAvatarDataURI` never looks
at the status, so the body of the error page is returned as a data URI and
shown as the image; the specification has the reference itself shown. -/
theorem createCardBody_avatar_not_found :
    Getenv (answeringWorld ["CI_COMMIT_AUTHOR_AVATAR=https://forge.example/a/7"] 404
          "text/plain" "gone").env (go "CI_COMMIT_AUTHOR_AVATAR") = go "https://forge.example/a/7"
      ∧ ((answeringWorld ["CI_COMMIT_AUTHOR_AVATAR=https://forge.example/a/7"] 404
          "text/plain" "gone").httpGet (go "https://forge.example/a/7")).toOption.map
            HttpResponse.statusCode = some 404
      ∧ avatarImageUrl (createCardBody
          (answeringWorld ["CI_COMMIT_AUTHOR_AVATAR=https://forge.example/a/7"] 404
            "text/plain" "gone") (go "abcdef1")).2
          = some (go "data:text/plain;base64,Z29uZQ==")
      ∧ avatarImageUrl (createCardBody
          (answeringWorld ["CI_COMMIT_AUTHOR_AVATAR=https://forge.example/a/7"] 404
            "text/plain" "gone") (go "abcdef1")).2
          ≠ some (go "https://forge.example/a/7") := by
  have hsource : avatarSource
      (answeringWorld ["CI_COMMIT_AUTHOR_AVATAR=https://forge.example/a/7"] 404
        "text/plain" "gone") = go "data:text/plain;base64,Z29uZQ==" := by
    rfl
  rw [avatarImageUrl_createCardBody, hsource]
  exact ⟨by decide, by decide, rfl, by decide⟩

/-- C14. On a successful retrieval `getAvatarDataURI` returns `data:`, the content type,
`;base64,` and the standard base64 encoding of the whole payload, the content
type being the `Content-Type` header of the response if it is non-empty, else
the type of the file extension of the URL if it has one, else the type sniffed
from the payload. -/
theorem getAvatarDataURI_success (w : World) (avatarURL : GoString) (resp : HttpResponse)
    (payload : GoString) (hget : w.httpGet avatarURL = .ok resp)
    (hread : resp.body = .ok payload) :
    getAvatarDataURI w avatarURL
        = .ok (go "data:" ++ avatarMime w avatarURL resp.contentType payload ++ go ";base64,"
            ++ EncodeToString payload)
      ∧ (resp.contentType ≠ [] →
          avatarMime w avatarURL resp.contentType payload = resp.contentType)
      ∧ (resp.contentType = [] → Ext avatarURL ≠ [] →
          avatarMime w avatarURL resp.contentType payload = w.typeByExtension (Ext avatarURL))
      ∧ (resp.contentType = [] → Ext avatarURL = [] →
          avatarMime w avatarURL resp.contentType payload = w.detectContentType payload)
      ∧ (EncodeToString payload).length = 4 * ((payload.length + 2) / 3) := by
  refine ⟨?_, fun hc => ?_, fun hc he => ?_, fun hc he => ?_, EncodeToString_length payload⟩
  · unfold getAvatarDataURI avatarMime
    simp only [hget, hread]
  · simp [avatarMime, hc]
  · simp [avatarMime, hc, he]
  · simp [avatarMime, hc, he]

/-- A response without `Content-Type` for a URL that ends in `.png`. -/
theorem getAvatarDataURI_success_witness :
    getAvatarDataURI (answeringWorld [] 200 "" "PNG") (go "https://forge.example/avatars/7.png")
      = .ok (go "data:image/png;base64,UE5H") :=
  ((getAvatarDataURI_success (answeringWorld [] 200 "" "PNG")
      (go "https://forge.example/avatars/7.png") ⟨200, go "", .ok (go "PNG")⟩ (go "PNG")
      (by rfl) (by rfl)).1).trans (by rfl)

/-- C20. The body of `createCardBody` has a fixed order: the status container with the
author first, then the facts container when there is one, then, when
`PLUGIN_VARIABLES` is non-empty, the `Variables:` text block and right after it
the table, last. Its length is 1, plus 1 if the fact selection is non-empty,
plus 2 if `PLUGIN_VARIABLES` is non-empty. -/
theorem createCardBody_layout (w : World) (projectVersion : GoString) :
    (∃ header varsBlocks,
        (createCardBody w projectVersion).2
            = header :: ((createFactsSection w projectVersion).toList ++ varsBlocks)
          ∧ header.field "type" = some (go "Container")
          ∧ header.field "style" = some (statusColor (effectiveStatus w.env))
          ∧ (header.children "items").map List.length = some 2
          ∧ (∀ block ∈ (createFactsSection w projectVersion).toList,
              block.field "type" = some (go "Container")
                ∧ emittedFacts (some block) = selectedFacts w projectVersion)
          ∧ (Getenv w.env (go "PLUGIN_VARIABLES") = [] → varsBlocks = [])
          ∧ (Getenv w.env (go "PLUGIN_VARIABLES") ≠ [] →
              ∃ heading table, varsBlocks = [heading, table]
                ∧ heading.field "type" = some (go "TextBlock")
                ∧ heading.field "text" = some (go "Variables:")
                ∧ table.field "type" = some (go "Table")))
      ∧ ((createFactsSection w projectVersion).toList.length
          = if (selectedFacts w projectVersion).isEmpty then 0 else 1)
      ∧ (createCardBody w projectVersion).2.length
          = 1 + (if (selectedFacts w projectVersion).isEmpty then 0 else 1)
              + (if Getenv w.env (go "PLUGIN_VARIABLES") ≠ [] then 2 else 0) := by
  have hfacts : (createFactsSection w projectVersion).toList.length
      = if (selectedFacts w projectVersion).isEmpty then 0 else 1 := by
    unfold createFactsSection
    cases selectedFacts w projectVersion <;> simp
  have hblock : ∀ block ∈ (createFactsSection w projectVersion).toList,
      block.field "type" = some (go "Container")
        ∧ emittedFacts (some block) = selectedFacts w projectVersion := by
    intro block hb
    have hsome : createFactsSection w projectVersion = some block := by
      cases hc : createFactsSection w projectVersion with
      | none => simp [hc] at hb
      | some other =>
        simp [hc] at hb
        rw [hb]
    refine ⟨?_, ?_⟩
    · rw [(createFactsSection_eq_some w projectVersion block hsome).2]
      simp [Value.field, Value.get?, List.lookup, Value.str?]
    · rw [← hsome, emittedFacts_createFactsSection]
  have hshape : ∃ header,
      createBaseBody w (statusColor (effectiveStatus w.env))
          (statusTitle (effectiveStatus w.env)) (avatarSource w) w.now projectVersion
        = header :: (createFactsSection w projectVersion).toList
      ∧ header.field "type" = some (go "Container")
      ∧ header.field "style" = some (statusColor (effectiveStatus w.env))
      ∧ (header.children "items").map List.length = some 2 := by
    unfold createBaseBody
    cases createFactsSection w projectVersion <;>
      exact ⟨_, rfl, by simp [Value.field, Value.get?, List.lookup, Value.str?],
        by simp [Value.field, Value.get?, List.lookup, Value.str?],
        by simp [Value.children, Value.get?, List.lookup, Value.list?]⟩
  obtain ⟨header, hbase, htype, hstyle, hitems⟩ := hshape
  rw [createCardBody_body_avatar]
  by_cases hv : Getenv w.env (go "PLUGIN_VARIABLES") = []
  · simp only [hv, ne_eq, not_true_eq_false, if_false]
    refine ⟨⟨header, [], by simpa using hbase, htype, hstyle, hitems, hblock, fun _ => rfl,
      fun h => h.elim⟩, hfacts, ?_⟩
    rw [hbase, List.length_cons, hfacts]
    omega
  · simp only [hv, ne_eq, not_false_eq_true, if_true]
    unfold appendVariablesTable
    rw [hbase]
    refine ⟨⟨header, _, by simp only [List.cons_append, List.append_assoc]; rfl, htype, hstyle,
      hitems, hblock, fun h => h.elim, fun _ => ⟨_, _, rfl, ?_, ?_, ?_⟩⟩, hfacts, ?_⟩
    · simp [Value.field, Value.get?, List.lookup, Value.str?]
    · simp [Value.field, Value.get?, List.lookup, Value.str?]
    · simp [Value.field, Value.get?, List.lookup, Value.str?]
    · simp only [List.length_append, List.length_cons, List.length_nil, hfacts]
      omega

/-- A run with two facts selected and two variables listed: four blocks. -/
theorem createCardBody_layout_witness :
    (createCardBody (quietWorld ["PLUGIN_FACTS=version,project", "PLUGIN_VARIABLES=FOO,BAR"])
        (go "abcdef1")).2.length
      = 1 + (if (selectedFacts
              (quietWorld ["PLUGIN_FACTS=version,project", "PLUGIN_VARIABLES=FOO,BAR"])
              (go "abcdef1")).isEmpty then 0 else 1)
          + (if Getenv (quietWorld ["PLUGIN_FACTS=version,project",
              "PLUGIN_VARIABLES=FOO,BAR"]).env (go "PLUGIN_VARIABLES") ≠ [] then 2 else 0) :=
  (createCardBody_layout (quietWorld ["PLUGIN_FACTS=version,project", "PLUGIN_VARIABLES=FOO,BAR"])
    (go "abcdef1")).2.2

/-! ## Delivery and `main` -/

/-- The steps and the ending of `sendCard`, case by case. -/
theorem sendCard_cases (rt : Runtime) (webhookURL cardBytes : GoString) :
    (∀ err, rt.httpPost webhookURL (go "application/json") cardBytes = .error err →
        sendCard rt webhookURL cardBytes
          = ([say (go "\nSending to Microsoft Teams...\n"),
              Step.httpPost webhookURL (go "application/json") cardBytes,
              say (go "Error sending to Teams: " ++ err ++ go "\n")], some 1))
      ∧ (∀ resp, rt.httpPost webhookURL (go "application/json") cardBytes = .ok resp →
          resp.statusCode ≠ 200 →
          sendCard rt webhookURL cardBytes
            = ([say (go "\nSending to Microsoft Teams...\n"),
                Step.httpPost webhookURL (go "application/json") cardBytes,
                say (go "Error response from Teams: " ++ resp.bodyRead ++ go "\n")], some 1))
      ∧ (∀ resp, rt.httpPost webhookURL (go "application/json") cardBytes = .ok resp →
          resp.statusCode = 200 →
          sendCard rt webhookURL cardBytes
            = ([say (go "\nSending to Microsoft Teams...\n"),
                Step.httpPost webhookURL (go "application/json") cardBytes,
                say (go "Done!\n")], none)) := by
  refine ⟨fun err h => ?_, fun resp h hs => ?_, fun resp h hs => ?_⟩
  · simp [sendCard, h]
  · simp [sendCard, h, hs]
  · simp [sendCard, h, hs]

/-- A text that starts with `E` is not the text `Done!`. -/
theorem error_text_ne_done (rest : GoString) (h : 0x45 :: rest = go "Done!\n") : False := by
  have hhead : some (0x45 : UInt8) = (go "Done!\n").head? := congrArg List.head? h
  exact absurd hhead (by decide)

/-- The delivery request is the only post of `sendCard`. -/
theorem posts_sendCard (rt : Runtime) (webhookURL cardBytes : GoString) :
    posts (sendCard rt webhookURL cardBytes).1 = [(webhookURL, cardBytes)] := by
  unfold sendCard
  cases rt.httpPost webhookURL (go "application/json") cardBytes with
  | error err => simp [posts, say]
  | ok resp => by_cases hs : resp.statusCode = 200 <;> simp [posts, say, hs]

/-- The line `Done!` is printed by `sendCard` exactly when it returns. -/
theorem done_mem_sendCard (rt : Runtime) (webhookURL cardBytes : GoString) :
    say (go "Done!\n") ∈ (sendCard rt webhookURL cardBytes).1
      ↔ (sendCard rt webhookURL cardBytes).2 = none := by
  have hstart : go "Done!\n" ≠ go "\nSending to Microsoft Teams...\n" := by decide
  have herr : ∀ err : GoString,
      go "Done!\n" ≠ go "Error sending to Teams: " ++ (err ++ go "\n") := by
    intro err h
    exact error_text_ne_done (go "rror sending to Teams: " ++ (err ++ go "\n")) h.symm
  have hresp : ∀ body : GoString,
      go "Done!\n" ≠ go "Error response from Teams: " ++ (body ++ go "\n") := by
    intro body h
    exact error_text_ne_done (go "rror response from Teams: " ++ (body ++ go "\n")) h.symm
  unfold sendCard
  cases rt.httpPost webhookURL (go "application/json") cardBytes with
  | error err =>
    have := herr err
    simp [say, hstart, this]
  | ok resp =>
    by_cases hs : resp.statusCode = 200
    · simp [say, hs]
    · have := hresp resp.bodyRead
      simp [say, hs, hstart, this]

/-- The function `sendCard` returns, or exits with status 1. -/
theorem sendCard_exit (rt : Runtime) (webhookURL cardBytes : GoString) :
    (sendCard rt webhookURL cardBytes).2 = none
      ∨ (sendCard rt webhookURL cardBytes).2 = some 1 := by
  unfold sendCard
  cases rt.httpPost webhookURL (go "application/json") cardBytes with
  | error err => simp
  | ok resp => by_cases hs : resp.statusCode = 200 <;> simp [hs]

/-- The process ends with status 0 after a delivery that returns, with status 1
after one that exits. -/
theorem deliver_outcome (rt : Runtime) (webhookURL projectVersion cardBytes : GoString) :
    ((sendCard rt webhookURL cardBytes).2 = none →
        (deliver rt webhookURL projectVersion cardBytes).2 = .exit 0)
      ∧ ((sendCard rt webhookURL cardBytes).2 = some 1 →
        (deliver rt webhookURL projectVersion cardBytes).2 = .exit 1) := by
  unfold deliver
  constructor <;> intro h <;> simp [h]

/-- C15. The function `sendCard` succeeds, printing `Done!` and letting the process end
with status 0, if and only if the POST completes without a transport error and
the status of the response is exactly 200; on a transport error and on every
other status, 201 and 202 among them, the process exits with status 1, and for
a response that is not 200 the body read from it is printed. -/
theorem sendCard_success_iff (rt : Runtime) (webhookURL cardBytes : GoString) :
    ((sendCard rt webhookURL cardBytes).2 = none ↔
        ∃ resp, rt.httpPost webhookURL (go "application/json") cardBytes = .ok resp
          ∧ resp.statusCode = 200)
      ∧ (say (go "Done!\n") ∈ (sendCard rt webhookURL cardBytes).1 ↔
        ∃ resp, rt.httpPost webhookURL (go "application/json") cardBytes = .ok resp
          ∧ resp.statusCode = 200)
      ∧ (∀ projectVersion, (deliver rt webhookURL projectVersion cardBytes).2 = .exit 0 ↔
        ∃ resp, rt.httpPost webhookURL (go "application/json") cardBytes = .ok resp
          ∧ resp.statusCode = 200)
      ∧ (∀ err, rt.httpPost webhookURL (go "application/json") cardBytes = .error err →
          (sendCard rt webhookURL cardBytes).2 = some 1
            ∧ ∀ projectVersion, (deliver rt webhookURL projectVersion cardBytes).2 = .exit 1)
      ∧ (∀ resp, rt.httpPost webhookURL (go "application/json") cardBytes = .ok resp →
          resp.statusCode ≠ 200 →
          (sendCard rt webhookURL cardBytes).2 = some 1
            ∧ (∀ projectVersion, (deliver rt webhookURL projectVersion cardBytes).2 = .exit 1)
            ∧ say (go "Error response from Teams: " ++ resp.bodyRead ++ go "\n")
                ∈ (sendCard rt webhookURL cardBytes).1) := by
  obtain ⟨herr, hbad, hgood⟩ := sendCard_cases rt webhookURL cardBytes
  have hiff : (sendCard rt webhookURL cardBytes).2 = none ↔
      ∃ resp, rt.httpPost webhookURL (go "application/json") cardBytes = .ok resp
        ∧ resp.statusCode = 200 := by
    cases hp : rt.httpPost webhookURL (go "application/json") cardBytes with
    | error err => simp [herr err hp]
    | ok resp =>
      by_cases hs : resp.statusCode = 200
      · simp [hgood resp hp hs, hs]
      · simp [hbad resp hp hs, hs]
  refine ⟨hiff, (done_mem_sendCard rt webhookURL cardBytes).trans hiff, fun projectVersion => ?_,
    fun err hp => ⟨by rw [herr err hp], fun projectVersion => ?_⟩,
    fun resp hp hs => ⟨by rw [hbad resp hp hs], fun projectVersion => ?_, ?_⟩⟩
  · rw [← hiff]
    rcases sendCard_exit rt webhookURL cardBytes with h | h
    · simp [h, (deliver_outcome rt webhookURL projectVersion cardBytes).1 h]
    · simp [h, (deliver_outcome rt webhookURL projectVersion cardBytes).2 h]
  · exact (deliver_outcome rt webhookURL projectVersion cardBytes).2 (by rw [herr err hp])
  · exact (deliver_outcome rt webhookURL projectVersion cardBytes).2 (by rw [hbad resp hp hs])
  · rw [hbad resp hp hs]
    simp

/-- A delivery answered with 200, one answered with 202 and one that fails in
transport. -/
theorem sendCard_success_iff_witness :
    ((sendCard (quietRuntime [] 200 "1") (go "https://hook.example/in") (go "(card)")).2 = none
        ∧ (deliver (quietRuntime [] 200 "1") (go "https://hook.example/in") (go "abcdef1")
            (go "(card)")).2 = .exit 0)
      ∧ ((sendCard (quietRuntime [] 202 "Accepted") (go "https://hook.example/in")
            (go "(card)")).2 = some 1
        ∧ say (go "Error response from Teams: "
              ++ DeliveryResponse.bodyRead ⟨202, go "Accepted"⟩ ++ go "\n")
            ∈ (sendCard (quietRuntime [] 202 "Accepted") (go "https://hook.example/in")
                (go "(card)")).1)
      ∧ (sendCard (offlineRuntime []) (go "https://hook.example/in") (go "(card)")).2 = some 1 :=
  ⟨⟨(sendCard_success_iff (quietRuntime [] 200 "1") (go "https://hook.example/in")
        (go "(card)")).1.mpr ⟨⟨200, go "1"⟩, rfl, rfl⟩,
    ((sendCard_success_iff (quietRuntime [] 200 "1") (go "https://hook.example/in")
        (go "(card)")).2.2.1 (go "abcdef1")).mpr ⟨⟨200, go "1"⟩, rfl, rfl⟩⟩,
   ⟨((sendCard_success_iff (quietRuntime [] 202 "Accepted") (go "https://hook.example/in")
        (go "(card)")).2.2.2.2 ⟨202, go "Accepted"⟩ rfl (by decide)).1,
    ((sendCard_success_iff (quietRuntime [] 202 "Accepted") (go "https://hook.example/in")
        (go "(card)")).2.2.2.2 ⟨202, go "Accepted"⟩ rfl (by decide)).2.2⟩,
   ((sendCard_success_iff (offlineRuntime []) (go "https://hook.example/in")
        (go "(card)")).2.2.2.1 (go "dial tcp: connection refused") rfl).1⟩

/-- The loop of `printDebugInfo` prints one line for every entry that has a `=`, in the
order of the sorted entries. -/
theorem printDebugInfo_eq (rt : Runtime) (cardBytes : GoString) :
    printDebugInfo rt cardBytes
      = [say (go "\n** DEBUG ENABLED **\n"), say (go "\nEnvironment Variables:\n")]
          ++ (debugPairs rt.env).map (fun kv => debugLine rt kv.1 kv.2)
          ++ [say (go "\nCard JSON:\n"), say (cardBytes ++ go "\n")] := by
  have hloop := foldl_select
    (fun (out : List Step) (env : GoString) =>
      match SplitN2 env with
      | [key, value] => out ++ [debugLine rt key value]
      | _ => out)
    (fun env => (cutEntry env).map fun kv => debugLine rt kv.1 kv.2)
    (by
      intro acc env
      unfold SplitN2
      cases h : cutEntry env <;> simp [h])
    (sortStrings (Environ rt.env)) []
  unfold printDebugInfo debugPairs
  simp only [hloop, List.nil_append, List.map_filterMap]

/-- The debug report only prints. -/
theorem printDebugInfo_prints (rt : Runtime) (cardBytes : GoString) :
    ∀ step ∈ printDebugInfo rt cardBytes, ∃ text, step = say text := by
  intro step hstep
  rw [printDebugInfo_eq] at hstep
  simp only [List.mem_append, List.mem_cons, List.mem_map, List.mem_singleton,
    List.not_mem_nil, or_false] at hstep
  rcases hstep with (h | h) | h
  · rcases h with h | h <;> exact ⟨_, h⟩
  · obtain ⟨kv, _, h⟩ := h
    exact ⟨_, h.symm⟩
  · rcases h with h | h <;> exact ⟨_, h⟩

theorem posts_of_prints (steps : List Step) (h : ∀ step ∈ steps, ∃ text, step = say text) :
    posts steps = [] ∧ networkSteps steps = [] := by
  induction steps with
  | nil => exact ⟨rfl, rfl⟩
  | cons step rest ih =>
    obtain ⟨text, htext⟩ := h step (List.mem_cons_self _ _)
    obtain ⟨h1, h2⟩ := ih fun other hother => h other (List.mem_cons_of_mem _ hother)
    subst htext
    constructor
    · simpa [posts, say] using h1
    · simpa [networkSteps, say] using h2

theorem posts_append (first second : List Step) :
    posts (first ++ second) = posts first ++ posts second := by
  simp [posts, List.filterMap_append]

theorem printBuildInfo_prints (rt : Runtime) (projectVersion : GoString) :
    ∀ step ∈ printBuildInfo rt projectVersion, ∃ text, step = say text := by
  intro step hstep
  simp only [printBuildInfo, List.mem_cons, List.mem_singleton, List.not_mem_nil,
    or_false] at hstep
  rcases hstep with h | h | h | h | h <;> exact ⟨_, h⟩

/-- The debug flag is on exactly when `PLUGIN_DEBUG` is the literal `true`. -/
theorem debug_flag (env : Env) :
    getEnvOrDefault env (go "PLUGIN_DEBUG") (go "false") = go "true"
      ↔ Getenv env (go "PLUGIN_DEBUG") = go "true" := by
  have h1 : go "false" ≠ go "true" := by decide
  have h2 : go "true" ≠ [] := by decide
  unfold getEnvOrDefault
  by_cases h : Getenv env (go "PLUGIN_DEBUG") = []
  · simp [h, h1, h2.symm]
  · simp [h]

/-- The steps of the delivery stage: the debug report if `PLUGIN_DEBUG` is `true`,
then the build info and the steps of `sendCard`. -/
theorem deliver_steps (rt : Runtime) (webhookURL projectVersion cardBytes : GoString) :
    (deliver rt webhookURL projectVersion cardBytes).1
      = (if Getenv rt.env (go "PLUGIN_DEBUG") = go "true" then printDebugInfo rt cardBytes
          else [])
        ++ (printBuildInfo rt projectVersion ++ (sendCard rt webhookURL cardBytes).1) := by
  unfold deliver
  by_cases h : Getenv rt.env (go "PLUGIN_DEBUG") = go "true"
  · simp [(debug_flag rt.env).mpr h, h]
  · have h' : ¬ getEnvOrDefault rt.env (go "PLUGIN_DEBUG") (go "false") = go "true" :=
      fun hflag => h ((debug_flag rt.env).mp hflag)
    simp [h, h']

theorem posts_deliver (rt : Runtime) (webhookURL projectVersion cardBytes : GoString) :
    posts (deliver rt webhookURL projectVersion cardBytes).1 = [(webhookURL, cardBytes)] := by
  rw [deliver_steps, posts_append, posts_append, posts_sendCard,
    (posts_of_prints _ (printBuildInfo_prints rt projectVersion)).1]
  by_cases h : Getenv rt.env (go "PLUGIN_DEBUG") = go "true"
  · simp [h, (posts_of_prints _ (printDebugInfo_prints rt cardBytes)).1]
  · simp [h, posts]

/-- C16. When `PLUGIN_WEBHOOK_URL` is unset or empty, `main` prints a diagnostic and exits
with status 1 before any network activity: the run holds neither the avatar
request nor the delivery request. -/
theorem main_without_webhook (rt : Runtime)
    (h : Getenv rt.env (go "PLUGIN_WEBHOOK_URL") = []) :
    main rt = ([say (go "Need to set MS Teams Webhook URL\n")], .exit 1)
      ∧ networkSteps (main rt).1 = []
      ∧ posts (main rt).1 = []
      ∧ (∀ url, Step.event (.httpGet url) ∉ (main rt).1)
      ∧ (∀ url contentType body, Step.httpPost url contentType body ∉ (main rt).1) := by
  have hmain : main rt = ([say (go "Need to set MS Teams Webhook URL\n")], .exit 1) := by
    unfold main
    simp [getEnvOrDefault_nil, h]
  rw [hmain]
  refine ⟨rfl, rfl, rfl, fun url => ?_, fun url contentType body => ?_⟩ <;> simp [say]

/-- A run without webhook in which an avatar is configured. -/
theorem main_without_webhook_witness :
    Getenv (quietRuntime ["CI_COMMIT_AUTHOR_AVATAR=https://forge.example/a/7",
          "CI_COMMIT_SHA=abcdef1234567"] 200 "1").env (go "PLUGIN_WEBHOOK_URL") = []
      ∧ main (quietRuntime ["CI_COMMIT_AUTHOR_AVATAR=https://forge.example/a/7",
          "CI_COMMIT_SHA=abcdef1234567"] 200 "1")
        = ([say (go "Need to set MS Teams Webhook URL\n")], .exit 1)
      ∧ networkSteps (main (quietRuntime ["CI_COMMIT_AUTHOR_AVATAR=https://forge.example/a/7",
          "CI_COMMIT_SHA=abcdef1234567"] 200 "1")).1 = [] :=
  ⟨by decide,
   (main_without_webhook (quietRuntime ["CI_COMMIT_AUTHOR_AVATAR=https://forge.example/a/7",
      "CI_COMMIT_SHA=abcdef1234567"] 200 "1") (by decide)).1,
   (main_without_webhook (quietRuntime ["CI_COMMIT_AUTHOR_AVATAR=https://forge.example/a/7",
      "CI_COMMIT_SHA=abcdef1234567"] 200 "1") (by decide)).2.1⟩

/-- The same run with a webhook: the avatar is requested and the card is posted. -/
theorem main_with_webhook_example :
    networkSteps (main (quietRuntime ["PLUGIN_WEBHOOK_URL=https://hook.example/in",
        "CI_COMMIT_AUTHOR_AVATAR=https://forge.example/a/7",
        "CI_COMMIT_SHA=abcdef1234567"] 200 "1")).1
      = [Step.event (.httpGet (go "https://forge.example/a/7")),
         Step.httpPost (go "https://hook.example/in") (go "application/json") (go "(card)")] := by
  rfl

/-- The first line of the debug report starts with a newline; a text that
starts with another byte is not it. -/
theorem debug_heading_ne (b : UInt8) (rest : GoString) (hb : b ≠ 0x0A) :
    go "\n** DEBUG ENABLED **\n" ≠ b :: rest := by
  intro h
  have hhead : some (0x0A : UInt8) = some b := congrArg List.head? h
  exact hb (Option.some.inj hhead).symm

/-- Neither the build info nor the delivery prints the first line of the debug
report. -/
theorem debug_heading_not_mem (rt : Runtime) (webhookURL projectVersion cardBytes : GoString) :
    say (go "\n** DEBUG ENABLED **\n")
      ∉ printBuildInfo rt projectVersion ++ (sendCard rt webhookURL cardBytes).1 := by
  have h1 : go "\n** DEBUG ENABLED **\n" ≠ go "\nBuild Info:\n" := by decide
  have h2 : go "\n** DEBUG ENABLED **\n" ≠ go "\nSending to Microsoft Teams...\n" := by decide
  have h3 : go "\n** DEBUG ENABLED **\n" ≠ go "Done!\n" := by decide
  have h4 : ∀ x : GoString, go "\n** DEBUG ENABLED **\n" ≠ go " PROJECT: " ++ (x ++ go "\n") :=
    fun x => debug_heading_ne 0x20 (go "PROJECT: " ++ (x ++ go "\n")) (by decide)
  have h5 : ∀ x : GoString, go "\n** DEBUG ENABLED **\n" ≠ go " VERSION: " ++ (x ++ go "\n") :=
    fun x => debug_heading_ne 0x20 (go "VERSION: " ++ (x ++ go "\n")) (by decide)
  have h6 : ∀ x : GoString, go "\n** DEBUG ENABLED **\n" ≠ go " STATUS:  " ++ (x ++ go "\n") :=
    fun x => debug_heading_ne 0x20 (go "STATUS:  " ++ (x ++ go "\n")) (by decide)
  have h7 : ∀ x : GoString, go "\n** DEBUG ENABLED **\n" ≠ go " DATE:    " ++ (x ++ go "\n") :=
    fun x => debug_heading_ne 0x20 (go "DATE:    " ++ (x ++ go "\n")) (by decide)
  have h8 : ∀ x : GoString,
      go "\n** DEBUG ENABLED **\n" ≠ go "Error sending to Teams: " ++ (x ++ go "\n") :=
    fun x => debug_heading_ne 0x45 (go "rror sending to Teams: " ++ (x ++ go "\n")) (by decide)
  have h9 : ∀ x : GoString,
      go "\n** DEBUG ENABLED **\n" ≠ go "Error response from Teams: " ++ (x ++ go "\n") :=
    fun x => debug_heading_ne 0x45 (go "rror response from Teams: " ++ (x ++ go "\n")) (by decide)
  unfold printBuildInfo sendCard
  cases rt.httpPost webhookURL (go "application/json") cardBytes with
  | error err => simp [say, h1, h2, h4, h5, h6, h7, h8]
  | ok resp =>
    by_cases hs : resp.statusCode = 200
    · simp [say, hs, h1, h2, h3, h4, h5, h6, h7]
    · simp [say, hs, h1, h2, h4, h5, h6, h7, h9]

/-- What `main` does when it gets as far as the delivery stage. -/
theorem main_reaches_delivery (rt : Runtime) (projectVersion cardBytes : GoString)
    (hhook : Getenv rt.env (go "PLUGIN_WEBHOOK_URL") ≠ [])
    (hversion : getProjectVersion rt.env = .ok projectVersion)
    (hbytes : rt.marshal (createTeamsCard rt.toWorld projectVersion).2 = .ok cardBytes) :
    main rt
      = ((createTeamsCard rt.toWorld projectVersion).1.map Step.event
          ++ (deliver rt (Getenv rt.env (go "PLUGIN_WEBHOOK_URL")) projectVersion cardBytes).1,
         (deliver rt (Getenv rt.env (go "PLUGIN_WEBHOOK_URL")) projectVersion cardBytes).2) := by
  unfold main
  simp [getEnvOrDefault_nil, hhook, hversion, hbytes]

theorem posts_map_event (events : List Event) : posts (events.map Step.event) = [] := by
  induction events with
  | nil => rfl
  | cons e rest ih => simp [posts]

/-- C18. The debug reporter is purely observational: whatever the environment and the
serialized card, the delivery stage of `main` posts the same bytes to the same
endpoint and ends the same way with and without the report, which only prints
and comes before the other steps; and the report is made exactly when
`PLUGIN_DEBUG` is the literal `true`. -/
theorem debug_observational (rt : Runtime) (webhookURL projectVersion cardBytes : GoString) :
    (deliver rt webhookURL projectVersion cardBytes).1
        = (if Getenv rt.env (go "PLUGIN_DEBUG") = go "true" then printDebugInfo rt cardBytes
            else [])
          ++ (printBuildInfo rt projectVersion ++ (sendCard rt webhookURL cardBytes).1)
      ∧ posts (deliver rt webhookURL projectVersion cardBytes).1 = [(webhookURL, cardBytes)]
      ∧ (∀ step ∈ printDebugInfo rt cardBytes, ∃ text, step = say text)
      ∧ networkSteps (printDebugInfo rt cardBytes) = []
      ∧ (say (go "\n** DEBUG ENABLED **\n") ∈ (deliver rt webhookURL projectVersion cardBytes).1
          ↔ Getenv rt.env (go "PLUGIN_DEBUG") = go "true")
      ∧ (∀ other : Runtime, other.httpPost = rt.httpPost →
          posts (deliver other webhookURL projectVersion cardBytes).1
              = posts (deliver rt webhookURL projectVersion cardBytes).1
            ∧ (deliver other webhookURL projectVersion cardBytes).2
              = (deliver rt webhookURL projectVersion cardBytes).2)
      ∧ (Getenv rt.env (go "PLUGIN_WEBHOOK_URL") ≠ [] →
          getProjectVersion rt.env = .ok projectVersion →
          rt.marshal (createTeamsCard rt.toWorld projectVersion).2 = .ok cardBytes →
          posts (main rt).1 = [(Getenv rt.env (go "PLUGIN_WEBHOOK_URL"), cardBytes)]) := by
  refine ⟨deliver_steps rt webhookURL projectVersion cardBytes,
    posts_deliver rt webhookURL projectVersion cardBytes,
    printDebugInfo_prints rt cardBytes,
    (posts_of_prints _ (printDebugInfo_prints rt cardBytes)).2, ?_, fun other hpost => ⟨?_, ?_⟩,
    fun hhook hversion hbytes => ?_⟩
  · rw [deliver_steps]
    have hnot := debug_heading_not_mem rt webhookURL projectVersion cardBytes
    by_cases h : Getenv rt.env (go "PLUGIN_DEBUG") = go "true"
    · simp [h, printDebugInfo_eq]
    · simp only [h, if_false, List.nil_append, iff_false]
      exact hnot
  · rw [posts_deliver, posts_deliver]
  · have hsame : sendCard other webhookURL cardBytes = sendCard rt webhookURL cardBytes := by
      unfold sendCard
      rw [hpost]
    unfold deliver
    simp only [hsame]
  · rw [main_reaches_delivery rt projectVersion cardBytes hhook hversion hbytes]
    simp only [posts_append, posts_map_event, posts_deliver, List.nil_append]

/-- Two runs that differ in `PLUGIN_DEBUG` only: the same post, and the first line
of the report in the first run only. -/
theorem debug_observational_witness :
    posts (main (quietRuntime ["PLUGIN_WEBHOOK_URL=https://hook.example/in",
        "PLUGIN_DEBUG=true", "CI_COMMIT_SHA=abcdef1234567"] 200 "1")).1
        = [(Getenv (quietRuntime ["PLUGIN_WEBHOOK_URL=https://hook.example/in",
            "PLUGIN_DEBUG=true", "CI_COMMIT_SHA=abcdef1234567"] 200 "1").env
            (go "PLUGIN_WEBHOOK_URL"), go "(card)")]
      ∧ posts (main (quietRuntime ["PLUGIN_WEBHOOK_URL=https://hook.example/in",
        "PLUGIN_DEBUG=TRUE", "CI_COMMIT_SHA=abcdef1234567"] 200 "1")).1
        = [(Getenv (quietRuntime ["PLUGIN_WEBHOOK_URL=https://hook.example/in",
            "PLUGIN_DEBUG=TRUE", "CI_COMMIT_SHA=abcdef1234567"] 200 "1").env
            (go "PLUGIN_WEBHOOK_URL"), go "(card)")]
      ∧ say (go "\n** DEBUG ENABLED **\n")
          ∈ (deliver (quietRuntime ["PLUGIN_WEBHOOK_URL=https://hook.example/in",
              "PLUGIN_DEBUG=true", "CI_COMMIT_SHA=abcdef1234567"] 200 "1")
              (go "https://hook.example/in") (go "abcdef1") (go "(card)")).1
      ∧ say (go "\n** DEBUG ENABLED **\n")
          ∉ (deliver (quietRuntime ["PLUGIN_WEBHOOK_URL=https://hook.example/in",
              "PLUGIN_DEBUG=TRUE", "CI_COMMIT_SHA=abcdef1234567"] 200 "1")
              (go "https://hook.example/in") (go "abcdef1") (go "(card)")).1 :=
  ⟨(debug_observational (quietRuntime ["PLUGIN_WEBHOOK_URL=https://hook.example/in",
        "PLUGIN_DEBUG=true", "CI_COMMIT_SHA=abcdef1234567"] 200 "1")
        (go "https://hook.example/in") (go "abcdef1") (go "(card)")).2.2.2.2.2.2
      (by decide) (by rfl) (by rfl),
   (debug_observational (quietRuntime ["PLUGIN_WEBHOOK_URL=https://hook.example/in",
        "PLUGIN_DEBUG=TRUE", "CI_COMMIT_SHA=abcdef1234567"] 200 "1")
        (go "https://hook.example/in") (go "abcdef1") (go "(card)")).2.2.2.2.2.2
      (by decide) (by rfl) (by rfl),
   ((debug_observational (quietRuntime ["PLUGIN_WEBHOOK_URL=https://hook.example/in",
        "PLUGIN_DEBUG=true", "CI_COMMIT_SHA=abcdef1234567"] 200 "1")
        (go "https://hook.example/in") (go "abcdef1") (go "(card)")).2.2.2.2.1).mpr
      (by decide),
   fun hmem => absurd
    (((debug_observational (quietRuntime ["PLUGIN_WEBHOOK_URL=https://hook.example/in",
        "PLUGIN_DEBUG=TRUE", "CI_COMMIT_SHA=abcdef1234567"] 200 "1")
        (go "https://hook.example/in") (go "abcdef1") (go "(card)")).2.2.2.2.1).mp hmem)
    (by decide)⟩

/-! ## Sorting the environment -/

theorem strLess_nil (s : GoString) : strLess s [] = false := by
  cases s <;> rfl

theorem strLess_cons_eq_false (a b : UInt8) (s t : GoString) :
    strLess (a :: s) (b :: t) = false
      ↔ ¬ a.toNat < b.toNat ∧ (b.toNat < a.toNat ∨ strLess s t = false) := by
  have hstep : strLess (a :: s) (b :: t)
      = if a.toNat < b.toNat then true else if b.toNat < a.toNat then false else strLess s t :=
    rfl
  rw [hstep]
  by_cases h1 : a.toNat < b.toNat
  · simp [h1]
  · by_cases h2 : b.toNat < a.toNat <;> simp [h1, h2]

/-- Of two strings one is not below the other. -/
theorem strLess_asymm (s t : GoString) (h : strLess s t = true) : strLess t s = false := by
  induction s generalizing t with
  | nil => exact strLess_nil t
  | cons a s ih =>
    cases t with
    | nil => simp [strLess] at h
    | cons b t =>
      rw [strLess_cons_eq_false]
      unfold strLess at h
      by_cases h1 : a.toNat < b.toNat
      · exact ⟨by omega, Or.inl h1⟩
      · by_cases h2 : b.toNat < a.toNat
        · simp [h1, h2] at h
        · simp only [h1, h2, if_false] at h
          exact ⟨h2, Or.inr (ih t h)⟩

/-- Not being above is transitive. -/
theorem strLess_trans (s t u : GoString) (hst : strLess t s = false)
    (htu : strLess u t = false) : strLess u s = false := by
  induction s generalizing t u with
  | nil =>
    cases t with
    | nil => exact htu
    | cons b t =>
      cases u with
      | nil => rfl
      | cons c u => exact strLess_nil _
  | cons a s ih =>
    cases t with
    | nil => simp [strLess] at hst
    | cons b t =>
      cases u with
      | nil => simp [strLess] at htu
      | cons c u =>
        rw [strLess_cons_eq_false] at hst htu ⊢
        obtain ⟨h1, h2⟩ := hst
        obtain ⟨h3, h4⟩ := htu
        refine ⟨by omega, ?_⟩
        rcases h2 with h2 | h2
        · exact Or.inl (by omega)
        · rcases h4 with h4 | h4
          · exact Or.inl (by omega)
          · by_cases hac : a.toNat < c.toNat
            · exact Or.inl hac
            · exact Or.inr (ih t u h2 h4)

theorem insertString_perm (s : GoString) (l : List GoString) :
    (insertString s l).Perm (s :: l) := by
  induction l with
  | nil => exact List.Perm.refl _
  | cons t rest ih =>
    unfold insertString
    by_cases h : strLess t s = true
    · simp only [h, if_true]
      exact (List.Perm.cons t ih).trans (List.Perm.swap s t rest)
    · rw [if_neg h]

/-- The function `sort.Strings` keeps every string, as often as it occurs. -/
theorem sortStrings_perm (l : List GoString) : (sortStrings l).Perm l := by
  induction l with
  | nil => exact List.Perm.refl _
  | cons s rest ih =>
    unfold sortStrings
    exact (insertString_perm s _).trans (List.Perm.cons s ih)

theorem insertString_sorted (s : GoString) (l : List GoString)
    (hl : l.Pairwise fun a b => strLess b a = false) :
    (insertString s l).Pairwise fun a b => strLess b a = false := by
  induction l with
  | nil => simp [insertString]
  | cons t rest ih =>
    rw [List.pairwise_cons] at hl
    unfold insertString
    by_cases h : strLess t s = true
    · simp only [h, if_true]
      rw [List.pairwise_cons]
      refine ⟨fun x hx => ?_, ih hl.2⟩
      rcases List.mem_cons.mp ((insertString_perm s rest).mem_iff.mp hx) with hxs | hxr
      · rw [hxs]
        exact strLess_asymm t s h
      · exact hl.1 x hxr
    · have hts : strLess t s = false := by simpa using h
      rw [if_neg h, List.pairwise_cons, List.pairwise_cons]
      refine ⟨fun x hx => ?_, hl⟩
      rcases List.mem_cons.mp hx with hxt | hxr
      · rw [hxt]
        exact hts
      · exact strLess_trans s t x hts (hl.1 x hxr)

/-- The function `sort.Strings` puts the strings in ascending order. -/
theorem sortStrings_sorted (l : List GoString) :
    (sortStrings l).Pairwise fun a b => strLess b a = false := by
  induction l with
  | nil => simp [sortStrings]
  | cons s rest ih =>
    unfold sortStrings
    exact insertString_sorted s _ ih

/-- An entry is its key, the sign `=` and its value. -/
theorem cutEntry_eq_some (entry : GoString) (kv : GoString × GoString)
    (h : cutEntry entry = some kv) : entry = kv.1 ++ 0x3D :: kv.2 := by
  induction entry generalizing kv with
  | nil => simp [cutEntry] at h
  | cons b rest ih =>
    unfold cutEntry at h
    by_cases hb : b = 0x3D
    · simp only [hb, if_true, Option.some.injEq] at h
      rw [← h, hb]
      rfl
    · simp only [hb, if_false] at h
      cases hrest : cutEntry rest with
      | none => simp [hrest] at h
      | some kv' =>
        simp only [hrest, Option.map_some', Option.some.injEq] at h
        rw [← h, List.cons_append, ← ih kv' hrest]

/-- Of two entries in ascending order the keys are in ascending order, unless the
key of the second is a proper beginning of the key of the first. -/
theorem key_order_of_entry_order (k1 k2 v1 v2 : GoString)
    (h : strLess (k2 ++ 0x3D :: v2) (k1 ++ 0x3D :: v1) = false) :
    strLess k2 k1 = false ∨ (k2 <+: k1 ∧ k2 ≠ k1) := by
  induction k1 generalizing k2 with
  | nil => exact Or.inl (strLess_nil k2)
  | cons a k1 ih =>
    cases k2 with
    | nil => exact Or.inr ⟨List.nil_prefix, by simp⟩
    | cons b k2 =>
      rw [List.cons_append, List.cons_append, strLess_cons_eq_false] at h
      obtain ⟨h1, h2⟩ := h
      rw [strLess_cons_eq_false]
      rcases h2 with h2 | h2
      · exact Or.inl ⟨h1, Or.inl h2⟩
      · rcases ih k2 h2 with h3 | h3
        · exact Or.inl ⟨h1, Or.inr h3⟩
        · by_cases hab : a.toNat < b.toNat
          · exact Or.inl ⟨h1, Or.inl hab⟩
          · have heq : b = a := UInt8.ext (by omega)
            right
            rw [heq]
            exact ⟨(List.prefix_cons_inj a).mpr h3.1, fun hk => h3.2 (List.cons.inj hk).2⟩

theorem firstBinding_cons_none (entry : GoString) (rest : Env) (k : GoString)
    (h : cutEntry entry = none) : firstBinding (entry :: rest) k = firstBinding rest k := by
  simp [firstBinding, List.filterMap_cons, h]

theorem firstBinding_cons_some (entry : GoString) (rest : Env) (k : GoString)
    (kv : GoString × GoString) (h : cutEntry entry = some kv) :
    firstBinding (entry :: rest) k = if kv.1 = k then some kv else firstBinding rest k := by
  by_cases hk : kv.1 = k
  · simp [firstBinding, List.filterMap_cons, h, List.find?_cons, hk]
  · have hb : (kv.1 == k) = false := by simpa using hk
    simp [firstBinding, List.filterMap_cons, h, List.find?_cons, hk, hb]

theorem environFrom_cons (seen : List GoString) (entry : GoString) (rest : Env) :
    environFrom seen (entry :: rest)
      = match cutEntry entry with
        | some kv =>
          if kv.1 ∈ seen then environFrom seen rest
          else entry :: environFrom (kv.1 :: seen) rest
        | none =>
          if entry = [] then environFrom seen rest
          else entry :: environFrom seen rest :=
  rfl

/-- The entries `os.Environ` keeps are the first entries of the keys not met
before. -/
theorem environFrom_binding (seen : List GoString) (env : Env) (k v : GoString) :
    (∃ entry ∈ environFrom seen env, cutEntry entry = some (k, v))
      ↔ k ∉ seen ∧ firstBinding env k = some (k, v) := by
  induction env generalizing seen with
  | nil => simp [environFrom, firstBinding]
  | cons entry rest ih =>
    cases hc : cutEntry entry with
    | none =>
      rw [firstBinding_cons_none entry rest k hc, ← ih seen]
      rw [environFrom_cons]
      simp only [hc]
      by_cases he : entry = []
      · simp [he]
      · simp only [he, if_false, List.mem_cons]
        constructor
        · rintro ⟨e, he' | he', hcut⟩
          · rw [he', hc] at hcut
            cases hcut
          · exact ⟨e, he', hcut⟩
        · rintro ⟨e, he', hcut⟩
          exact ⟨e, Or.inr he', hcut⟩
    | some kv =>
      rw [firstBinding_cons_some entry rest k kv hc]
      rw [environFrom_cons]
      simp only [hc]
      by_cases hseen : kv.1 ∈ seen
      · simp only [hseen, if_true]
        rw [ih seen]
        by_cases hk : kv.1 = k
        · rw [hk] at hseen
          simp [hseen]
        · simp [hk]
      · simp only [hseen, if_false, List.mem_cons]
        constructor
        · rintro ⟨e, he | he, hcut⟩
          · rw [he, hc] at hcut
            have hkv : kv = (k, v) := Option.some.inj hcut
            subst hkv
            exact ⟨hseen, by simp⟩
          · obtain ⟨hnot, hfirst⟩ := (ih (kv.1 :: seen)).mp ⟨e, he, hcut⟩
            have hne : kv.1 ≠ k := fun h => hnot (h ▸ List.mem_cons_self _ _)
            exact ⟨fun hin => hnot (List.mem_cons_of_mem _ hin), by simp [hne, hfirst]⟩
        · rintro ⟨hnot, hfirst⟩
          by_cases hk : kv.1 = k
          · simp only [hk, if_true, Option.some.injEq] at hfirst
            exact ⟨entry, Or.inl rfl, by rw [hc, hfirst]⟩
          · simp only [hk, if_false] at hfirst
            obtain ⟨e, he, hcut⟩ := (ih (kv.1 :: seen)).mpr
              ⟨by
                intro hin
                rcases List.mem_cons.mp hin with h | h
                · exact hk h.symm
                · exact hnot h, hfirst⟩
            exact ⟨e, Or.inr he, hcut⟩

/-- The pairs of the debug report are the variables of the environment. -/
theorem mem_debugPairs (env : Env) (k v : GoString) :
    (k, v) ∈ debugPairs env ↔ firstBinding env k = some (k, v) := by
  unfold debugPairs Environ
  rw [List.mem_filterMap]
  have h := environFrom_binding [] env k v
  simp only [List.not_mem_nil, not_false_eq_true, true_and] at h
  rw [← h]
  constructor
  · rintro ⟨e, he, hcut⟩
    exact ⟨e, (sortStrings_perm _).mem_iff.mp he, hcut⟩
  · rintro ⟨e, he, hcut⟩
    exact ⟨e, (sortStrings_perm _).mem_iff.mpr he, hcut⟩

/-- The pairs of the debug report are in the ascending order of their entries,
and so in the ascending order of their keys unless the key of the later pair
is a proper beginning of the key of the earlier one. -/
theorem debugPairs_sorted (env : Env) :
    (debugPairs env).Pairwise
        (fun p q => strLess (q.1 ++ 0x3D :: q.2) (p.1 ++ 0x3D :: p.2) = false)
      ∧ (debugPairs env).Pairwise
        (fun p q => strLess q.1 p.1 = false ∨ (q.1 <+: p.1 ∧ q.1 ≠ p.1)) := by
  have hentries : (debugPairs env).Pairwise
      (fun p q => strLess (q.1 ++ 0x3D :: q.2) (p.1 ++ 0x3D :: p.2) = false) := by
    unfold debugPairs
    refine List.Pairwise.filterMap cutEntry ?_ (sortStrings_sorted (Environ env))
    intro e1 e2 hle p hp q hq
    rw [← cutEntry_eq_some e1 p (by simpa using hp), ← cutEntry_eq_some e2 q (by simpa using hq)]
    exact hle
  exact ⟨hentries, hentries.imp fun {p q} h => key_order_of_entry_order p.1 q.1 p.2 q.2 h⟩

/-- C17, as stated, fails: with the variables `A` and `A1` the pair of `A1` is printed
before the pair of `A`, although the key `A` is below the key `A1`; the printed
pairs are not in ascending order of their key. -/
theorem printDebugInfo_key_order_counterexample :
    debugPairs [go "A=x", go "A1=y"] = [(go "A1", go "y"), (go "A", go "x")]
      ∧ strLess (go "A") (go "A1") = true
      ∧ ¬ (debugPairs [go "A=x", go "A1=y"]).Pairwise (fun p q => strLess q.1 p.1 = false)
      ∧ printDebugInfo (quietRuntime ["A=x", "A1=y"] 200 "1") (go "(card)")
          = [say (go "\n** DEBUG ENABLED **\n"), say (go "\nEnvironment Variables:\n"),
             debugLine (quietRuntime ["A=x", "A1=y"] 200 "1") (go "A1") (go "y"),
             debugLine (quietRuntime ["A=x", "A1=y"] 200 "1") (go "A") (go "x"),
             say (go "\nCard JSON:\n"), say (go "(card)\n")] := by
  refine ⟨by decide, by decide, by decide, ?_⟩
  rw [printDebugInfo_eq]
  have hpairs : debugPairs (quietRuntime ["A=x", "A1=y"] 200 "1").env
      = [(go "A1", go "y"), (go "A", go "x")] := by decide
  rw [hpairs]
  rfl

/-- C17, amended. When debug is enabled, `printDebugInfo` prints every key/value pair of
the environment, and the pairs are printed in the ascending byte order of their
whole `KEY=value` entries; this is the ascending order of their keys, except
that a key which is a proper beginning of another key (as `A` is of `A1`) can
come after it. -/
theorem printDebugInfo_entry_order (rt : Runtime) (cardBytes : GoString) :
    printDebugInfo rt cardBytes
        = [say (go "\n** DEBUG ENABLED **\n"), say (go "\nEnvironment Variables:\n")]
            ++ (debugPairs rt.env).map (fun kv => debugLine rt kv.1 kv.2)
            ++ [say (go "\nCard JSON:\n"), say (cardBytes ++ go "\n")]
      ∧ (∀ key value, (key, value) ∈ debugPairs rt.env
          ↔ firstBinding rt.env key = some (key, value))
      ∧ (debugPairs rt.env).Pairwise
          (fun p q => strLess (q.1 ++ 0x3D :: q.2) (p.1 ++ 0x3D :: p.2) = false)
      ∧ (debugPairs rt.env).Pairwise
          (fun p q => strLess q.1 p.1 = false ∨ (q.1 <+: p.1 ∧ q.1 ≠ p.1)) :=
  ⟨printDebugInfo_eq rt cardBytes, mem_debugPairs rt.env, (debugPairs_sorted rt.env).1,
    (debugPairs_sorted rt.env).2⟩

end TeamsNotification
